import Mathlib

/-!
# Verification of lamco-wayland components

A shallow embedding of the pure cores of the `lamco-wayland` workspace
(`lamco-pipewire` damage tracking, YUV conversion, adaptive bitrate, and the
`lamco-portal` clipboard bridge and PipeWire manager), with theorems settling
the specification's claims about them.

Conventions: Rust `u32`/`u64`/`usize` values are modelled as `ℕ`; wrap-around
is made explicit (`% 2^32`) exactly where the source can overflow in release
mode. Rust `f32`/`f64` quantities (damage threshold, congestion level) are
modelled as exact rationals `ℚ`; the floating-point computations idealised this
way are noted at each definition. `Instant` timestamps are not modelled; the
time-dependent "has the adjustment interval elapsed" test becomes an explicit
boolean oracle input. Fallible code returns `Option`/`Except`; a Rust panic
(assert failure, index out of bounds, division by zero) is `none`.
-/

namespace LamcoWayland

/-! ## Damage tracking (`crates/lamco-pipewire/src/damage.rs`) -/

/-- `DamageRegion` from `damage.rs`. Coordinates are `u32` in the source,
modelled as `ℕ`; every arithmetic operation on them below wraps (`% 2^32`)
exactly as release-build `u32` arithmetic does. -/
structure DamageRegion where
  x : ℕ
  y : ℕ
  width : ℕ
  height : ℕ
deriving DecidableEq

/-- Regions whose `u32` edge sums `x + width` and `y + height` do not
overflow (true of every region of a real frame, whose coordinates fit the
frame; it forces all four fields below `2^32`). It is preserved by `merge`,
and on such regions the wrapping `% 2^32` operations in `overlaps`,
`should_merge` and `merge` are the identity. -/
def NoWrap (r : DamageRegion) : Prop :=
  r.x + r.width < 2 ^ 32 ∧ r.y + r.height < 2 ^ 32

instance (r : DamageRegion) : Decidable (NoWrap r) := by
  unfold NoWrap
  infer_instance

/-- `DamageRegion::area`: a `u64` product of two `u32` values — it cannot
overflow `u64`, so no wrap is needed. -/
def DamageRegion.area (r : DamageRegion) : ℕ :=
  r.width * r.height

/-- `DamageRegion::overlaps`; the `u32` edge sums `x + width` / `y + height`
wrap in release builds, modelled `% 2^32`. -/
def DamageRegion.overlaps (a b : DamageRegion) : Bool :=
  decide (a.x < (b.x + b.width) % 2 ^ 32) &&
    decide ((a.x + a.width) % 2 ^ 32 > b.x) &&
    decide (a.y < (b.y + b.height) % 2 ^ 32) &&
    decide ((a.y + a.height) % 2 ^ 32 > b.y)

/-- `DamageRegion::merge`: bounding box of the two rectangles. The edge sums
`x + width` / `y + height` are wrapping `u32` additions, and the final
`x2 - x` / `y2 - y` are wrapping `u32` subtractions (`x2` can wrap below `x`),
modelled as `(x2 + 2^32 - x) % 2^32`. -/
def DamageRegion.merge (a b : DamageRegion) : DamageRegion :=
  let x := min a.x b.x
  let y := min a.y b.y
  let x2 := max ((a.x + a.width) % 2 ^ 32) ((b.x + b.width) % 2 ^ 32)
  let y2 := max ((a.y + a.height) % 2 ^ 32) ((b.y + b.height) % 2 ^ 32)
  ⟨x, y, (x2 + 2 ^ 32 - x) % 2 ^ 32, (y2 + 2 ^ 32 - y) % 2 ^ 32⟩

/-- `DamageRegion::clip`: clip a region to the frame bounds (the source binds
`width`/`height` once; they are inlined here). -/
def DamageRegion.clip (r : DamageRegion) (frame_width frame_height : ℕ) :
    Option DamageRegion :=
  if frame_width ≤ r.x ∨ frame_height ≤ r.y then none
  else if min r.width (frame_width - r.x) = 0 ∨ min r.height (frame_height - r.y) = 0 then
    none
  else
    some ⟨r.x, r.y, min r.width (frame_width - r.x), min r.height (frame_height - r.y)⟩

/-- Horizontal gap between two regions (`dist_x` in
`DamageTracker::should_merge`); `0` when the intervals touch or overlap. The
edge sums wrap (`u32`); the guarded subtractions cannot underflow. -/
def distX (a b : DamageRegion) : ℕ :=
  if (a.x + a.width) % 2 ^ 32 < b.x then b.x - (a.x + a.width) % 2 ^ 32
  else if (b.x + b.width) % 2 ^ 32 < a.x then a.x - (b.x + b.width) % 2 ^ 32
  else 0

/-- Vertical gap between two regions (`dist_y` in
`DamageTracker::should_merge`); edge sums wrap as in `distX`. -/
def distY (a b : DamageRegion) : ℕ :=
  if (a.y + a.height) % 2 ^ 32 < b.y then b.y - (a.y + a.height) % 2 ^ 32
  else if (b.y + b.height) % 2 ^ 32 < a.y then a.y - (b.y + b.height) % 2 ^ 32
  else 0

/-- `DamageTracker::should_merge`, with the tracker's `merge_distance` passed
explicitly: merge when overlapping, or when the axis gaps are both within
`d`. -/
def shouldMerge (d : ℕ) (a b : DamageRegion) : Bool :=
  a.overlaps b || (decide (distX a b ≤ d) && decide (distY a b ≤ d))

/-- One pass of the inner `while i < self.regions.len()` loop of
`DamageTracker::add_with_merge`: fold the accumulated region `m` over the
list, absorbing every region that `should_merge` with the growing `m` and
keeping the rest; the boolean records whether any merge happened
(`merged_any`). -/
def mergePass (d : ℕ) (m : DamageRegion) :
    List DamageRegion → DamageRegion × List DamageRegion × Bool
  | [] => (m, [], false)
  | r :: rest =>
    if shouldMerge d m r then
      let p := mergePass d (m.merge r) rest
      (p.1, p.2.1, true)
    else
      let p := mergePass d m rest
      (p.1, r :: p.2.1, p.2.2)

theorem mergePass_length_le (d : ℕ) (m : DamageRegion) (rs : List DamageRegion) :
    (mergePass d m rs).2.1.length ≤ rs.length := by
  induction rs generalizing m with
  | nil => simp [mergePass]
  | cons r rest ih =>
    simp only [mergePass]
    split
    · exact Nat.le_succ_of_le (ih _)
    · simpa using Nat.succ_le_succ (ih m)

theorem mergePass_length_lt (d : ℕ) (m : DamageRegion) (rs : List DamageRegion)
    (h : (mergePass d m rs).2.2 = true) :
    (mergePass d m rs).2.1.length < rs.length := by
  induction rs generalizing m with
  | nil => simp [mergePass] at h
  | cons r rest ih =>
    simp only [mergePass] at h ⊢
    split
    · exact Nat.lt_succ_of_le (mergePass_length_le d _ rest)
    · rename_i hc
      simp only [hc] at h
      simpa using Nat.succ_lt_succ (ih m (by simpa using h))

/-- The outer `while merged_any` loop of `DamageTracker::add_with_merge`,
with an explicit fuel argument (structural recursion): each merging pass
strictly shrinks the list, so `rs.length + 1` units of fuel always suffice
(`mergeLoop` below supplies them, so the fuel-exhausted branch is
unreachable). -/
def mergeLoopAux (d : ℕ) :
    ℕ → DamageRegion → List DamageRegion → DamageRegion × List DamageRegion
  | 0, m, rs => (m, rs)
  | fuel + 1, m, rs =>
    let p := mergePass d m rs
    if p.2.2 then mergeLoopAux d fuel p.1 p.2.1 else (p.1, p.2.1)

/-- The `while merged_any` loop of `DamageTracker::add_with_merge`. -/
def mergeLoop (d : ℕ) (m : DamageRegion) (rs : List DamageRegion) :
    DamageRegion × List DamageRegion :=
  mergeLoopAux d (rs.length + 1) m rs

/-- `DamageTracker::add_with_merge` on the region list: run the merge loop and
push the final merged region at the end. -/
def addWithMerge (d : ℕ) (rs : List DamageRegion) (r : DamageRegion) :
    List DamageRegion :=
  let p := mergeLoop d r rs
  p.2 ++ [p.1]

/-- Damage statistics (`DamageStats`); `avg_damage_ratio` is `f64` in the
source (and never written), modelled as `ℚ`. -/
structure DamageStats where
  frames_processed : ℕ
  full_damage_frames : ℕ
  partial_damage_frames : ℕ
  total_regions : ℕ
  avg_damage_ratio : ℚ
deriving DecidableEq

def DamageStats.default : DamageStats := ⟨0, 0, 0, 0, 0⟩

/-- `DamageTracker` from `damage.rs`. `full_damage_threshold` is `f32` in the
source, modelled as `ℚ` (every `f32` value is a rational). The `last_update`
`Instant` field is not modelled. -/
structure DamageTracker where
  regions : List DamageRegion
  full_damage_threshold : ℚ
  merge_distance : ℕ
  enable_merging : Bool
  stats : DamageStats
  max_regions : ℕ
deriving DecidableEq

namespace DamageTracker

/-- `DamageTracker::new`: defaults `threshold = 0.5`, `merge_distance = 32`,
merging on, `max_regions = 64`. -/
def new : DamageTracker :=
  { regions := []
    full_damage_threshold := 1 / 2
    merge_distance := 32
    enable_merging := true
    stats := DamageStats.default
    max_regions := 64 }

/-- `DamageTracker::with_threshold` (`threshold.clamp(0.0, 1.0)`). -/
def with_threshold (threshold : ℚ) : DamageTracker :=
  { new with full_damage_threshold := min (max threshold 0) 1 }

/-- `DamageTracker::with_settings`. -/
def with_settings (threshold : ℚ) (merge_distance : ℕ) (max_regions : ℕ) :
    DamageTracker :=
  { new with
    full_damage_threshold := min (max threshold 0) 1
    merge_distance := merge_distance
    max_regions := max_regions }

/-- `DamageTracker::add_region`: drop the region when the cap is already
reached, otherwise merge it in (or push it when merging is disabled) and bump
the `total_regions` statistic. -/
def add_region (t : DamageTracker) (r : DamageRegion) : DamageTracker :=
  if t.max_regions ≤ t.regions.length then t
  else
    let regions' :=
      if t.enable_merging then addWithMerge t.merge_distance t.regions r
      else t.regions ++ [r]
    { t with
      regions := regions'
      stats := { t.stats with total_regions := t.stats.total_regions + 1 } }

/-- `DamageTracker::add_regions`: add a batch in order. -/
def add_regions (t : DamageTracker) (l : List DamageRegion) : DamageTracker :=
  l.foldl add_region t

/-- `DamageTracker::set_merging`. -/
def set_merging (t : DamageTracker) (enable : Bool) : DamageTracker :=
  { t with enable_merging := enable }

/-- `DamageTracker::total_damaged_area`: the `u64` iterator sum of the
region areas wraps in release builds (`% 2^64`; addition is compositional
under the modulus, so wrapping the total models wrapping each step). -/
def total_damaged_area (t : DamageTracker) : ℕ :=
  (t.regions.map DamageRegion.area).sum % 2 ^ 64

/-- `DamageTracker::damage_ratio`: damaged area over total frame area, `0`
when the frame area is zero. The `f64` division is idealised as exact `ℚ`
division. -/
def damage_ratio (t : DamageTracker) (frame_size : ℕ × ℕ) : ℚ :=
  let total_area := frame_size.1 * frame_size.2
  if total_area = 0 then 0
  else (t.total_damaged_area : ℚ) / (total_area : ℚ)

/-- `DamageTracker::should_full_update`. -/
def should_full_update (t : DamageTracker) (frame_size : ℕ × ℕ) : Bool :=
  if t.regions.isEmpty then true
  else if t.max_regions ≤ t.regions.length then true
  else decide (t.full_damage_threshold ≤ t.damage_ratio frame_size)

end DamageTracker

/-- The rational `ℚ` division convention `q / 0 = 0` makes the guarded
`damage_ratio` equal to the bare quotient. -/
theorem damage_ratio_eq_div (t : DamageTracker) (W H : ℕ) :
    t.damage_ratio (W, H) = (t.total_damaged_area : ℚ) / ((W * H : ℕ) : ℚ) := by
  unfold DamageTracker.damage_ratio
  by_cases h : W * H = 0
  · simp [h]
  · simp [h]

/-- The C1 counterexample tracker: merging disabled, two stored regions of
`(2^32-1) × (2^31+1)` pixels each. Their exact areas sum to
`18446744078004518910 ≥ 2^64`, so the release-build `u64` sum wraps to
`4294967294`. -/
def wrapCexTracker : DamageTracker :=
  ((DamageTracker.new.set_merging false).add_region
      ⟨0, 0, 2 ^ 32 - 1, 2 ^ 31 + 1⟩).add_region ⟨0, 0, 2 ^ 32 - 1, 2 ^ 31 + 1⟩

/-- C1 counterexample: over a `(2^32-1) × (2^32-1)` frame, the tracker holding
two `(2^32-1) × (2^31+1)` regions (merging disabled, well under the cap) has an
exact damaged-area fraction above the `1/2` threshold — the regions more than
cover the frame — yet `should_full_update` returns `false`: the `u64` area sum
wraps to `4294967294` and the computed ratio is about `2^-32`. -/
theorem should_full_update_wrap_cex :
    wrapCexTracker.should_full_update (2 ^ 32 - 1, 2 ^ 32 - 1) = false ∧
      wrapCexTracker.regions ≠ [] ∧
      wrapCexTracker.regions.length < wrapCexTracker.max_regions ∧
      wrapCexTracker.full_damage_threshold ≤
        ((wrapCexTracker.regions.map DamageRegion.area).sum : ℚ) /
          (((2 ^ 32 - 1) * (2 ^ 32 - 1) : ℕ) : ℚ) := by
  have hreg : wrapCexTracker.regions =
      [⟨0, 0, 2 ^ 32 - 1, 2 ^ 31 + 1⟩, ⟨0, 0, 2 ^ 32 - 1, 2 ^ 31 + 1⟩] := by decide
  have htda : wrapCexTracker.total_damaged_area = 4294967294 := by decide
  have hth : wrapCexTracker.full_damage_threshold = 1 / 2 := rfl
  have hmax : wrapCexTracker.max_regions = 64 := rfl
  refine ⟨?_, by decide, by decide, ?_⟩
  · have hratio : wrapCexTracker.damage_ratio (2 ^ 32 - 1, 2 ^ 32 - 1) =
        (4294967294 : ℚ) / 18446744065119617025 := by
      rw [damage_ratio_eq_div, htda]
      norm_num
    unfold DamageTracker.should_full_update
    rw [hratio, hth, hreg, hmax]
    simp
    norm_num
  · have hsum : (wrapCexTracker.regions.map DamageRegion.area).sum =
        18446744078004518910 := by decide
    rw [hsum, hth]
    norm_num

/-- C1 corrected. `should_full_update` over a frame `(W,H)` returns `true`
exactly when the region set is empty, or the region count has reached
`max_regions`, or the *wrapped* damaged-area fraction reaches
`full_damage_threshold`: the `u64` area sum wraps (`% 2^64`) in release
builds. Whenever the exact area sum is below `2^64` — every realistic frame —
the wrapped and exact sums coincide and the claim's reading holds verbatim
(second conjunct). Areas and the threshold are compared as exact rationals;
for `W*H = 0` both the code's guard and the `ℚ` convention give ratio `0`. -/
theorem should_full_update_iff (t : DamageTracker) (W H : ℕ) :
    (t.should_full_update (W, H) = true ↔
      t.regions = [] ∨ t.max_regions ≤ t.regions.length ∨
        t.full_damage_threshold ≤ (t.total_damaged_area : ℚ) / ((W * H : ℕ) : ℚ)) ∧
      ((t.regions.map DamageRegion.area).sum < 2 ^ 64 →
        (t.should_full_update (W, H) = true ↔
          t.regions = [] ∨ t.max_regions ≤ t.regions.length ∨
            t.full_damage_threshold ≤
              (((t.regions.map DamageRegion.area).sum : ℕ) : ℚ) /
                ((W * H : ℕ) : ℚ))) := by
  have hiff : t.should_full_update (W, H) = true ↔
      t.regions = [] ∨ t.max_regions ≤ t.regions.length ∨
        t.full_damage_threshold ≤ (t.total_damaged_area : ℚ) / ((W * H : ℕ) : ℚ) := by
    unfold DamageTracker.should_full_update
    rw [damage_ratio_eq_div]
    by_cases h1 : t.regions = []
    · simp [h1]
    · by_cases h2 : t.max_regions ≤ t.regions.length
      · simp [h1, h2, List.isEmpty_iff]
      · simp [h1, h2, List.isEmpty_iff]
  refine ⟨hiff, fun hlt => ?_⟩
  have e : t.total_damaged_area = (t.regions.map DamageRegion.area).sum :=
    Nat.mod_eq_of_lt hlt
  rw [← e]
  exact hiff

/-- C1 corrected, witness: a fresh tracker holding one `40 × 40` region over a
`100 × 100` frame; the exact area sum `1600` is far below `2^64`, and the iff
instantiates with the exact sum. -/
theorem should_full_update_iff_witness :
    (((DamageTracker.new.add_region ⟨0, 0, 40, 40⟩).regions.map
        DamageRegion.area).sum < 2 ^ 64) ∧
      ((DamageTracker.new.add_region ⟨0, 0, 40, 40⟩).should_full_update
          (100, 100) = true ↔
        (DamageTracker.new.add_region ⟨0, 0, 40, 40⟩).regions = [] ∨
          (DamageTracker.new.add_region ⟨0, 0, 40, 40⟩).max_regions ≤
            (DamageTracker.new.add_region ⟨0, 0, 40, 40⟩).regions.length ∨
          (DamageTracker.new.add_region ⟨0, 0, 40, 40⟩).full_damage_threshold ≤
            ((((DamageTracker.new.add_region ⟨0, 0, 40, 40⟩).regions.map
                DamageRegion.area).sum : ℕ) : ℚ) / ((100 * 100 : ℕ) : ℚ)) :=
  ⟨by decide,
    (should_full_update_iff (DamageTracker.new.add_region ⟨0, 0, 40, 40⟩)
        100 100).2 (by decide)⟩

/-- C2 counterexample: `add_region` stores regions as given — it never calls
`DamageRegion::clip` — so after adding `(x=200, y=200, w=50, h=50)` to a fresh
tracker used for a `100 × 100` frame, the stored region extends past the frame
bounds (`r.x + r.width = 250 > 100`). -/
theorem add_region_not_clipped_cex :
    ∃ r ∈ (DamageTracker.new.add_region ⟨200, 200, 50, 50⟩).regions,
      ¬(r.x + r.width ≤ 100 ∧ r.y + r.height ≤ 100) := by
  refine ⟨⟨200, 200, 50, 50⟩, ?_, ?_⟩
  · decide
  · decide

/-- C2 amended: it is `DamageRegion::clip` that establishes the bounds
invariant — every region it returns lies inside the frame and has positive
extent; `add_region` itself performs no clipping. -/
theorem clip_bounds_invariant (r : DamageRegion) (W H : ℕ) (c : DamageRegion)
    (h : r.clip W H = some c) :
    c.x + c.width ≤ W ∧ c.y + c.height ≤ H ∧ 0 < c.width ∧ 0 < c.height := by
  unfold DamageRegion.clip at h
  split at h
  · exact Option.noConfusion h
  · split at h
    · exact Option.noConfusion h
    · rename_i hx hz
      push_neg at hx hz
      injection h with h
      subst h
      have h1 : min r.width (W - r.x) ≤ W - r.x := Nat.min_le_right _ _
      have h2 : min r.height (H - r.y) ≤ H - r.y := Nat.min_le_right _ _
      dsimp only
      exact ⟨by omega, by omega,
        Nat.pos_of_ne_zero hz.1, Nat.pos_of_ne_zero hz.2⟩

/-- C2 amended, witness. -/
theorem clip_bounds_invariant_witness :
    (DamageRegion.mk 900 500 200 200).clip 1000 600 = some ⟨900, 500, 100, 100⟩ ∧
      (900 + 100 ≤ 1000 ∧ 500 + 100 ≤ 600 ∧ 0 < 100 ∧ 0 < 100) :=
  ⟨by decide,
    clip_bounds_invariant ⟨900, 500, 200, 200⟩ 1000 600 ⟨900, 500, 100, 100⟩ (by decide)⟩

/-! ### Order-independence of region merging (C3)

The merging discipline is a rewriting system on multisets of regions: a step
replaces two mergeable regions by their bounding box. It is terminating (each
step shrinks the multiset) and locally confluent, hence has unique normal
forms; `add_with_merge` computes such a normal form. The `max_regions` cap in
`add_region`, however, silently drops a region whenever the current set is
full, which is order-dependent. -/

theorem DamageRegion.eq_of_fields {a b : DamageRegion} (hx : a.x = b.x)
    (hy : a.y = b.y) (hw : a.width = b.width) (hh : a.height = b.height) :
    a = b := by
  cases a
  cases b
  simp_all

theorem DamageRegion.merge_xeq (a b : DamageRegion) :
    (a.merge b).x = min a.x b.x := rfl

theorem DamageRegion.merge_yeq (a b : DamageRegion) :
    (a.merge b).y = min a.y b.y := rfl

theorem DamageRegion.merge_width (a b : DamageRegion) :
    (a.merge b).width =
      (max ((a.x + a.width) % 2 ^ 32) ((b.x + b.width) % 2 ^ 32) + 2 ^ 32 -
        min a.x b.x) % 2 ^ 32 := rfl

theorem DamageRegion.merge_height (a b : DamageRegion) :
    (a.merge b).height =
      (max ((a.y + a.height) % 2 ^ 32) ((b.y + b.height) % 2 ^ 32) + 2 ^ 32 -
        min a.y b.y) % 2 ^ 32 := rfl

/-- `merge` preserves the no-edge-overflow invariant: the merged region's
edges are the maxima of the input edges. -/
theorem mergeNoWrap {a b : DamageRegion} (ha : NoWrap a) (hb : NoWrap b) :
    NoWrap (a.merge b) := by
  obtain ⟨ha1, ha2⟩ := ha
  obtain ⟨hb1, hb2⟩ := hb
  unfold NoWrap
  rw [DamageRegion.merge_xeq, DamageRegion.merge_yeq, DamageRegion.merge_width,
    DamageRegion.merge_height]
  omega

/-- For non-overflowing inputs, the right edge of the merged region is the
maximum of the two right edges — so in the "(left edge, right edge)" view,
`merge` is componentwise `min`/`max` and all the `% 2^32` drop out. -/
theorem merge_edgeX (a b : DamageRegion) (hax : a.x + a.width < 2 ^ 32)
    (hbx : b.x + b.width < 2 ^ 32) :
    (a.merge b).x + (a.merge b).width = max (a.x + a.width) (b.x + b.width) := by
  rw [DamageRegion.merge_xeq, DamageRegion.merge_width]
  omega

theorem merge_edgeY (a b : DamageRegion) (hay : a.y + a.height < 2 ^ 32)
    (hby : b.y + b.height < 2 ^ 32) :
    (a.merge b).y + (a.merge b).height = max (a.y + a.height) (b.y + b.height) := by
  rw [DamageRegion.merge_yeq, DamageRegion.merge_height]
  omega

theorem DamageRegion.merge_comm (a b : DamageRegion) : a.merge b = b.merge a := by
  refine eq_of_fields ?_ ?_ ?_ ?_
  · rw [merge_xeq, merge_xeq, min_comm]
  · rw [merge_yeq, merge_yeq, min_comm]
  · rw [merge_width, merge_width, max_comm, min_comm]
  · rw [merge_height, merge_height, max_comm, min_comm]

set_option maxHeartbeats 1600000 in
theorem DamageRegion.merge_assoc (a b c : DamageRegion) (ha : NoWrap a)
    (hb : NoWrap b) (hc : NoWrap c) :
    (a.merge b).merge c = a.merge (b.merge c) := by
  obtain ⟨ha1, ha2⟩ := ha
  obtain ⟨hb1, hb2⟩ := hb
  obtain ⟨hc1, hc2⟩ := hc
  refine eq_of_fields ?_ ?_ ?_ ?_
  · dsimp only [DamageRegion.merge]
    omega
  · dsimp only [DamageRegion.merge]
    omega
  · dsimp only [DamageRegion.merge]
    rw [Nat.mod_eq_of_lt ha1, Nat.mod_eq_of_lt hb1, Nat.mod_eq_of_lt hc1]
    have e1 : (max (a.x + a.width) (b.x + b.width) + 2 ^ 32 - min a.x b.x) % 2 ^ 32 =
        max (a.x + a.width) (b.x + b.width) - min a.x b.x := by omega
    have e2 : (max (b.x + b.width) (c.x + c.width) + 2 ^ 32 - min b.x c.x) % 2 ^ 32 =
        max (b.x + b.width) (c.x + c.width) - min b.x c.x := by omega
    rw [e1, e2]
    have e3 : (min a.x b.x +
        (max (a.x + a.width) (b.x + b.width) - min a.x b.x)) % 2 ^ 32 =
        max (a.x + a.width) (b.x + b.width) := by omega
    have e4 : (min b.x c.x +
        (max (b.x + b.width) (c.x + c.width) - min b.x c.x)) % 2 ^ 32 =
        max (b.x + b.width) (c.x + c.width) := by omega
    rw [e3, e4]
    omega
  · dsimp only [DamageRegion.merge]
    rw [Nat.mod_eq_of_lt ha2, Nat.mod_eq_of_lt hb2, Nat.mod_eq_of_lt hc2]
    have e1 : (max (a.y + a.height) (b.y + b.height) + 2 ^ 32 - min a.y b.y) % 2 ^ 32 =
        max (a.y + a.height) (b.y + b.height) - min a.y b.y := by omega
    have e2 : (max (b.y + b.height) (c.y + c.height) + 2 ^ 32 - min b.y c.y) % 2 ^ 32 =
        max (b.y + b.height) (c.y + c.height) - min b.y c.y := by omega
    rw [e1, e2]
    have e3 : (min a.y b.y +
        (max (a.y + a.height) (b.y + b.height) - min a.y b.y)) % 2 ^ 32 =
        max (a.y + a.height) (b.y + b.height) := by omega
    have e4 : (min b.y c.y +
        (max (b.y + b.height) (c.y + c.height) - min b.y c.y)) % 2 ^ 32 =
        max (b.y + b.height) (c.y + c.height) := by omega
    rw [e3, e4]
    omega

/-- On non-overflowing regions, `should_merge` is characterised by the four
truncated-subtraction gaps between the edges: overlap forces both gaps to
`0`, so the whole condition is "both axis gaps are within `d`". -/
theorem shouldMerge_iff (d : ℕ) (a b : DamageRegion) (ha : NoWrap a)
    (hb : NoWrap b) :
    shouldMerge d a b = true ↔
      b.x - (a.x + a.width) ≤ d ∧ a.x - (b.x + b.width) ≤ d ∧
        b.y - (a.y + a.height) ≤ d ∧ a.y - (b.y + b.height) ≤ d := by
  obtain ⟨ha1, ha2⟩ := ha
  obtain ⟨hb1, hb2⟩ := hb
  simp only [shouldMerge, DamageRegion.overlaps, distX, distY, Bool.or_eq_true,
    Bool.and_eq_true, decide_eq_true_eq]
  split_ifs <;> omega

/-- On non-overflowing regions, `should_merge` is symmetric. (With a wrapped
edge it is not: the second `dist` branch is shadowed by the first.) -/
theorem shouldMerge_symm (d : ℕ) (a b : DamageRegion) (ha : NoWrap a)
    (hb : NoWrap b) : shouldMerge d a b = shouldMerge d b a := by
  rw [Bool.eq_iff_iff, shouldMerge_iff d a b ha hb, shouldMerge_iff d b a hb ha]
  omega

/-- Mergeability is monotone under enlarging one non-overflowing side to a
bounding box with another non-overflowing region. -/
theorem shouldMerge_mono (d : ℕ) (a b c : DamageRegion) (ha : NoWrap a)
    (hb : NoWrap b) (hc : NoWrap c) (h : shouldMerge d a b = true) :
    shouldMerge d a (b.merge c) = true := by
  rw [shouldMerge_iff d a b ha hb] at h
  rw [shouldMerge_iff d a (b.merge c) ha (mergeNoWrap hb hc),
    merge_edgeX b c hb.1 hc.1, merge_edgeY b c hb.2 hc.2,
    DamageRegion.merge_xeq, DamageRegion.merge_yeq]
  omega

/-- One merging step of the rewriting system on multisets of regions: replace
two non-overflowing regions satisfying `should_merge` by their bounding box.
(`NoWrap` of the pair is part of the step so that the bounding-box algebra —
symmetry, commutativity, associativity — applies.) -/
def MStep (d : ℕ) (S T : Multiset DamageRegion) : Prop :=
  ∃ a b K, NoWrap a ∧ NoWrap b ∧ shouldMerge d a b = true ∧
    S = a ::ₘ b ::ₘ K ∧ T = a.merge b ::ₘ K

theorem MStep.cons (d : ℕ) {S T : Multiset DamageRegion} (r : DamageRegion)
    (h : MStep d S T) : MStep d (r ::ₘ S) (r ::ₘ T) := by
  obtain ⟨a, b, K, hra, hrb, hab, rfl, rfl⟩ := h
  exact ⟨a, b, r ::ₘ K, hra, hrb, hab,
    by rw [Multiset.cons_swap r a, Multiset.cons_swap r b],
    by rw [Multiset.cons_swap r (a.merge b)]⟩

theorem MStep.add_right (d : ℕ) {S T : Multiset DamageRegion}
    (C : Multiset DamageRegion) (h : MStep d S T) : MStep d (S + C) (T + C) := by
  obtain ⟨a, b, K, hra, hrb, hab, rfl, rfl⟩ := h
  exact ⟨a, b, K + C, hra, hrb, hab, by rw [Multiset.cons_add, Multiset.cons_add],
    by rw [Multiset.cons_add]⟩

/-- Joining the two results of merging overlapping pairs `{x,y}` and `{y,z}`
that share `y`: both sides reach the bounding box of all three. -/
theorem mstep_join_shared (d : ℕ) (x y z : DamageRegion)
    (N : Multiset DamageRegion) (hrx : NoWrap x) (hry : NoWrap y)
    (hrz : NoWrap z) (hxy : shouldMerge d x y = true)
    (hyz : shouldMerge d y z = true) :
    ∃ U, MStep d (x.merge y ::ₘ z ::ₘ N) U ∧ MStep d (y.merge z ::ₘ x ::ₘ N) U := by
  refine ⟨(x.merge y).merge z ::ₘ N,
    ⟨x.merge y, z, N, mergeNoWrap hrx hry, hrz, ?_, rfl, rfl⟩,
    ⟨y.merge z, x, N, mergeNoWrap hry hrz, hrx, ?_, rfl, ?_⟩⟩
  · rw [shouldMerge_symm d (x.merge y) z (mergeNoWrap hrx hry) hrz]
    have h1 : shouldMerge d z y = true := by
      rw [shouldMerge_symm d z y hrz hry]
      exact hyz
    have h2 := shouldMerge_mono d z y x hrz hry hrx h1
    rwa [DamageRegion.merge_comm y x] at h2
  · rw [shouldMerge_symm d (y.merge z) x (mergeNoWrap hry hrz) hrx]
    exact shouldMerge_mono d x y z hrx hry hrz hxy
  · rw [DamageRegion.merge_comm (y.merge z) x,
      ← DamageRegion.merge_assoc x y z hrx hry hrz]

/-- Local confluence of the merging step, in the semi-confluent form consumed
by `Relation.church_rosser`. -/
theorem mstep_semiconfluent (d : ℕ) (S T1 T2 : Multiset DamageRegion)
    (h1 : MStep d S T1) (h2 : MStep d S T2) :
    ∃ U, Relation.ReflGen (MStep d) T1 U ∧
      Relation.ReflTransGen (MStep d) T2 U := by
  obtain ⟨a, b, K1, hra, hrb, hab, rfl, rfl⟩ := h1
  obtain ⟨c, e, K2, hrc, hre, hce, hS, rfl⟩ := h2
  rcases Multiset.cons_eq_cons.mp hS with ⟨hac, hrest⟩ | ⟨hac, cs, hbK1, heK2⟩
  · rw [← hac] at hce ⊢
    rcases Multiset.cons_eq_cons.mp hrest with ⟨hbe, hK⟩ | ⟨hbe, N, hK1, hK2⟩
    · rw [← hbe, ← hK]
      exact ⟨a.merge b ::ₘ K1, Relation.ReflGen.refl, Relation.ReflTransGen.refl⟩
    · rw [hK1, hK2]
      have hba : shouldMerge d b a = true := by
        rw [shouldMerge_symm d b a hrb hra]
        exact hab
      obtain ⟨U, s1, s2⟩ := mstep_join_shared d b a e N hrb hra hre hba hce
      rw [DamageRegion.merge_comm b a] at s1
      exact ⟨U, Relation.ReflGen.single s1, Relation.ReflTransGen.single s2⟩
  · rcases Multiset.cons_eq_cons.mp hbK1 with ⟨hbc, hK1cs⟩ | ⟨hbc, N, hK1, hcs⟩
    · rw [← hbc] at hce ⊢
      rw [← hK1cs] at heK2
      rcases Multiset.cons_eq_cons.mp heK2 with ⟨hea, hK21⟩ | ⟨hea, M, hK2, hK1'⟩
      · rw [hea, hK21, DamageRegion.merge_comm b a]
        exact ⟨a.merge b ::ₘ K1, Relation.ReflGen.refl, Relation.ReflTransGen.refl⟩
      · rw [hK2, hK1']
        obtain ⟨U, s1, s2⟩ := mstep_join_shared d a b e M hra hrb hre hab hce
        exact ⟨U, Relation.ReflGen.single s1, Relation.ReflTransGen.single s2⟩
    · rw [hcs] at heK2
      rcases Multiset.cons_eq_cons.mp heK2 with ⟨hea, hK2⟩ | ⟨hea, M, hK2, hM⟩
      · rw [hK1, hea, hK2]
        rw [hea] at hce
        rw [shouldMerge_symm d c a hrc hra] at hce
        have hba : shouldMerge d b a = true := by
          rw [shouldMerge_symm d b a hrb hra]
          exact hab
        obtain ⟨U, s1, s2⟩ := mstep_join_shared d b a c N hrb hra hrc hba hce
        rw [DamageRegion.merge_comm b a] at s1
        rw [DamageRegion.merge_comm c a]
        exact ⟨U, Relation.ReflGen.single s1, Relation.ReflTransGen.single s2⟩
      · rcases Multiset.cons_eq_cons.mp hM with ⟨hbe, hNM⟩ | ⟨hbe, W, hN, hMW⟩
        · rw [hK1, hNM, hK2, ← hbe]
          rw [← hbe] at hce
          rw [shouldMerge_symm d c b hrc hrb] at hce
          obtain ⟨U, s1, s2⟩ := mstep_join_shared d a b c M hra hrb hrc hab hce
          rw [DamageRegion.merge_comm b c] at s2
          exact ⟨U, Relation.ReflGen.single s1, Relation.ReflTransGen.single s2⟩
        · rw [hK1, hN, hK2, hMW]
          refine ⟨a.merge b ::ₘ c.merge e ::ₘ W, Relation.ReflGen.single ?_,
            Relation.ReflTransGen.single ?_⟩
          · refine ⟨c, e, a.merge b ::ₘ W, hrc, hre, hce, ?_, ?_⟩
            · rw [Multiset.cons_swap (a.merge b) c, Multiset.cons_swap (a.merge b) e]
            · rw [Multiset.cons_swap (a.merge b) (c.merge e)]
          · refine ⟨a, b, c.merge e ::ₘ W, hra, hrb, hab, ?_, ?_⟩
            · rw [Multiset.cons_swap (c.merge e) a, Multiset.cons_swap (c.merge e) b]
            · rfl

/-- Normal forms of the merging rewriting system. -/
def MNormal (d : ℕ) (S : Multiset DamageRegion) : Prop :=
  ∀ T, ¬ MStep d S T

theorem eq_of_reflTransGen_normal (d : ℕ) {S T : Multiset DamageRegion}
    (h : Relation.ReflTransGen (MStep d) S T) (hn : MNormal d S) : S = T := by
  rcases Relation.ReflTransGen.cases_head h with h' | ⟨c, hc, -⟩
  · exact h'
  · exact absurd hc (hn c)

/-- Unique normal forms: two normal forms reachable from the same multiset
coincide. -/
theorem mstep_normal_unique (d : ℕ) {S T1 T2 : Multiset DamageRegion}
    (h1 : Relation.ReflTransGen (MStep d) S T1)
    (h2 : Relation.ReflTransGen (MStep d) S T2)
    (n1 : MNormal d T1) (n2 : MNormal d T2) : T1 = T2 := by
  obtain ⟨U, hU1, hU2⟩ :=
    Relation.church_rosser (fun a b c hab hac => mstep_semiconfluent d a b c hab hac) h1 h2
  have e1 : T1 = U := eq_of_reflTransGen_normal d hU1 n1
  have e2 : T2 = U := eq_of_reflTransGen_normal d hU2 n2
  rw [e1, e2]

/-- A merging pass over representable regions realises merging steps on the
underlying multiset. -/
theorem mergePass_rtg (d : ℕ) :
    ∀ (rs : List DamageRegion) (m : DamageRegion), NoWrap m →
      (∀ r ∈ rs, NoWrap r) →
      Relation.ReflTransGen (MStep d) (m ::ₘ ↑rs)
        ((mergePass d m rs).1 ::ₘ ↑(mergePass d m rs).2.1) := by
  intro rs
  induction rs with
  | nil => intro m _ _; exact Relation.ReflTransGen.refl
  | cons r rest ih =>
    intro m hm hrs
    have hr : NoWrap r := hrs r (List.mem_cons_self r rest)
    have hrest : ∀ x ∈ rest, NoWrap x := fun x hx => hrs x (List.mem_cons_of_mem r hx)
    simp only [mergePass]
    split
    · rename_i hsm
      have step : MStep d (m ::ₘ ↑(r :: rest)) (m.merge r ::ₘ ↑rest) := by
        refine ⟨m, r, ↑rest, hm, hr, hsm, ?_, rfl⟩
        rw [Multiset.cons_coe r rest]
      exact Relation.ReflTransGen.head step (ih (m.merge r) (mergeNoWrap hm hr) hrest)
    · have lifted := Relation.ReflTransGen.lift (fun S => r ::ₘ S)
        (fun x y hxy => MStep.cons d r hxy) (ih m hm hrest)
      dsimp only at lifted
      rw [Multiset.cons_swap r m, Multiset.cons_swap r (mergePass d m rest).1] at lifted
      rw [Multiset.cons_coe r rest, Multiset.cons_coe r (mergePass d m rest).2.1] at lifted
      exact lifted

/-- A merging pass keeps the accumulated region representable. -/
theorem mergePass_rep (d : ℕ) :
    ∀ (rs : List DamageRegion) (m : DamageRegion), NoWrap m →
      (∀ r ∈ rs, NoWrap r) → NoWrap (mergePass d m rs).1 := by
  intro rs
  induction rs with
  | nil => intro m hm _; exact hm
  | cons r rest ih =>
    intro m hm hrs
    have hr : NoWrap r := hrs r (List.mem_cons_self r rest)
    have hrest : ∀ x ∈ rest, NoWrap x := fun x hx => hrs x (List.mem_cons_of_mem r hx)
    simp only [mergePass]
    split
    · exact ih (m.merge r) (mergeNoWrap hm hr) hrest
    · exact ih m hm hrest

theorem mergePass_false_spec (d : ℕ) (m : DamageRegion) (rs : List DamageRegion)
    (h : (mergePass d m rs).2.2 = false) :
    (mergePass d m rs).1 = m ∧ (mergePass d m rs).2.1 = rs ∧
      ∀ r ∈ rs, shouldMerge d m r = false := by
  induction rs generalizing m with
  | nil => simp [mergePass]
  | cons r rest ih =>
    by_cases hsm : shouldMerge d m r = true
    · simp [mergePass, hsm] at h
    · simp only [mergePass, hsm, if_neg, Bool.not_eq_true] at h ⊢
      obtain ⟨e1, e2, e3⟩ := ih m h
      refine ⟨e1, by rw [e2], ?_⟩
      intro x hx
      rcases List.mem_cons.mp hx with hx | hx
      · subst hx
        simpa using hsm
      · exact e3 x hx

theorem mergePass_sublist (d : ℕ) (m : DamageRegion) (rs : List DamageRegion) :
    (mergePass d m rs).2.1.Sublist rs := by
  induction rs generalizing m with
  | nil => simp [mergePass]
  | cons r rest ih =>
    simp only [mergePass]
    split
    · exact (ih (m.merge r)).trans (List.sublist_cons_self r rest)
    · exact (ih m).cons₂ r

/-- The merge loop realises merging steps on the underlying multiset. -/
theorem mergeLoopAux_rtg (d : ℕ) :
    ∀ (fuel : ℕ) (m : DamageRegion) (rs : List DamageRegion), rs.length < fuel →
      NoWrap m → (∀ r ∈ rs, NoWrap r) →
      Relation.ReflTransGen (MStep d) (m ::ₘ ↑rs)
        ((mergeLoopAux d fuel m rs).1 ::ₘ ↑(mergeLoopAux d fuel m rs).2) := by
  intro fuel
  induction fuel with
  | zero => intro m rs h _ _; exact absurd h (Nat.not_lt_zero _)
  | succ fuel ih =>
    intro m rs h hm hrs
    simp only [mergeLoopAux]
    split
    · rename_i htrue
      refine Relation.ReflTransGen.trans (mergePass_rtg d rs m hm hrs) ?_
      refine ih (mergePass d m rs).1 (mergePass d m rs).2.1 ?_
        (mergePass_rep d rs m hm hrs)
        (fun x hx => hrs x ((mergePass_sublist d m rs).subset hx))
      have := mergePass_length_lt d m rs htrue
      omega
    · exact mergePass_rtg d rs m hm hrs

/-- The merge loop keeps the accumulated region representable. -/
theorem mergeLoopAux_rep (d : ℕ) :
    ∀ (fuel : ℕ) (m : DamageRegion) (rs : List DamageRegion), rs.length < fuel →
      NoWrap m → (∀ r ∈ rs, NoWrap r) → NoWrap (mergeLoopAux d fuel m rs).1 := by
  intro fuel
  induction fuel with
  | zero => intro m rs h _ _; exact absurd h (Nat.not_lt_zero _)
  | succ fuel ih =>
    intro m rs h hm hrs
    simp only [mergeLoopAux]
    split
    · rename_i htrue
      refine ih (mergePass d m rs).1 (mergePass d m rs).2.1 ?_
        (mergePass_rep d rs m hm hrs)
        (fun x hx => hrs x ((mergePass_sublist d m rs).subset hx))
      have := mergePass_length_lt d m rs htrue
      omega
    · exact mergePass_rep d rs m hm hrs

/-- After the merge loop: the kept regions are a sublist of the originals,
and none of them merges with the final accumulated region. -/
theorem mergeLoopAux_spec (d : ℕ) :
    ∀ (fuel : ℕ) (m : DamageRegion) (rs : List DamageRegion), rs.length < fuel →
      (mergeLoopAux d fuel m rs).2.Sublist rs ∧
        ∀ r ∈ (mergeLoopAux d fuel m rs).2,
          shouldMerge d (mergeLoopAux d fuel m rs).1 r = false := by
  intro fuel
  induction fuel with
  | zero => intro m rs h; exact absurd h (Nat.not_lt_zero _)
  | succ fuel ih =>
    intro m rs h
    simp only [mergeLoopAux]
    split
    · rename_i htrue
      have hlt := mergePass_length_lt d m rs htrue
      obtain ⟨hsub, hfin⟩ := ih (mergePass d m rs).1 (mergePass d m rs).2.1 (by omega)
      exact ⟨hsub.trans (mergePass_sublist d m rs), hfin⟩
    · rename_i hfalse
      obtain ⟨e1, e2, e3⟩ := mergePass_false_spec d m rs (by simpa using hfalse)
      rw [e1, e2]
      exact ⟨List.Sublist.refl rs, e3⟩

/-- Lists of regions in which no two regions merge (the invariant of the
accumulated damage set). -/
def PairwiseNM (d : ℕ) (l : List DamageRegion) : Prop :=
  l.Pairwise fun a b => shouldMerge d a b = false

theorem coe_append_singleton (l : List DamageRegion) (x : DamageRegion) :
    ((l ++ [x] : List DamageRegion) : Multiset DamageRegion) = x ::ₘ ↑l := by
  rw [← Multiset.coe_add, Multiset.coe_singleton, add_comm, Multiset.singleton_add]

theorem addWithMerge_rtg (d : ℕ) (rs : List DamageRegion) (r : DamageRegion)
    (hr : NoWrap r) (hrs : ∀ x ∈ rs, NoWrap x) :
    Relation.ReflTransGen (MStep d) (r ::ₘ ↑rs) ↑(addWithMerge d rs r) := by
  unfold addWithMerge mergeLoop
  rw [coe_append_singleton]
  exact mergeLoopAux_rtg d (rs.length + 1) r rs (Nat.lt_succ_self _) hr hrs

/-- `add_with_merge` preserves representability of all stored regions. -/
theorem addWithMerge_rep (d : ℕ) (rs : List DamageRegion) (r : DamageRegion)
    (hr : NoWrap r) (hrs : ∀ x ∈ rs, NoWrap x) :
    ∀ x ∈ addWithMerge d rs r, NoWrap x := by
  intro x hx
  unfold addWithMerge mergeLoop at hx
  rcases List.mem_append.mp hx with hx | hx
  · exact hrs x ((mergeLoopAux_spec d (rs.length + 1) r rs (Nat.lt_succ_self _)).1.subset hx)
  · rw [List.mem_singleton] at hx
    subst hx
    exact mergeLoopAux_rep d (rs.length + 1) r rs (Nat.lt_succ_self _) hr hrs

theorem addWithMerge_pairwise (d : ℕ) (rs : List DamageRegion) (r : DamageRegion)
    (hr : NoWrap r) (hrs : ∀ x ∈ rs, NoWrap x)
    (h : PairwiseNM d rs) : PairwiseNM d (addWithMerge d rs r) := by
  unfold addWithMerge mergeLoop
  obtain ⟨hsub, hfin⟩ := mergeLoopAux_spec d (rs.length + 1) r rs (Nat.lt_succ_self _)
  refine List.pairwise_append.mpr ⟨h.sublist hsub, List.pairwise_singleton _ _, ?_⟩
  intro a ha b hb
  rw [List.mem_singleton] at hb
  subst hb
  rw [shouldMerge_symm d a (mergeLoopAux d (rs.length + 1) r rs).1
    (hrs a (hsub.subset ha))
    (mergeLoopAux_rep d (rs.length + 1) r rs (Nat.lt_succ_self _) hr hrs)]
  exact hfin a ha

theorem addWithMerge_length (d : ℕ) (rs : List DamageRegion) (r : DamageRegion) :
    (addWithMerge d rs r).length ≤ rs.length + 1 := by
  unfold addWithMerge mergeLoop
  have hsub := (mergeLoopAux_spec d (rs.length + 1) r rs (Nat.lt_succ_self _)).1
  have := hsub.length_le
  rw [List.length_append]
  simpa using this

theorem foldl_addWithMerge_rtg (d : ℕ) :
    ∀ (l acc : List DamageRegion), (∀ x ∈ acc, NoWrap x) → (∀ x ∈ l, NoWrap x) →
      Relation.ReflTransGen (MStep d) (↑acc + ↑l)
        ↑(l.foldl (addWithMerge d) acc) := by
  intro l
  induction l with
  | nil => intro acc _ _; simpa using Relation.ReflTransGen.refl
  | cons r rest ih =>
    intro acc hacc hl
    have hr : NoWrap r := hl r (List.mem_cons_self r rest)
    have hrest : ∀ x ∈ rest, NoWrap x := fun x hx => hl x (List.mem_cons_of_mem r hx)
    have h1 := Relation.ReflTransGen.lift
      (fun S : Multiset DamageRegion => S + (↑rest : Multiset DamageRegion))
      (fun x y hxy => MStep.add_right d ↑rest hxy) (addWithMerge_rtg d acc r hr hacc)
    dsimp only at h1
    have e1 : (↑acc + ↑(r :: rest) : Multiset DamageRegion) = (r ::ₘ ↑acc) + ↑rest := by
      rw [← Multiset.cons_coe r rest, Multiset.add_cons, ← Multiset.cons_add]
    rw [List.foldl_cons]
    refine Relation.ReflTransGen.trans ?_
      (ih (addWithMerge d acc r) (addWithMerge_rep d acc r hr hacc) hrest)
    rw [e1]
    exact h1

theorem foldl_addWithMerge_pairwise (d : ℕ) :
    ∀ (l acc : List DamageRegion), (∀ x ∈ acc, NoWrap x) → (∀ x ∈ l, NoWrap x) →
      PairwiseNM d acc → PairwiseNM d (l.foldl (addWithMerge d) acc) := by
  intro l
  induction l with
  | nil => intro acc _ _ h; exact h
  | cons r rest ih =>
    intro acc hacc hl h
    have hr : NoWrap r := hl r (List.mem_cons_self r rest)
    have hrest : ∀ x ∈ rest, NoWrap x := fun x hx => hl x (List.mem_cons_of_mem r hx)
    rw [List.foldl_cons]
    exact ih _ (addWithMerge_rep d acc r hr hacc) hrest
      (addWithMerge_pairwise d acc r hr hacc h)

/-- A pairwise non-mergeable list is a normal form of the merging system.
(The pairwise relation is transported along the permutation through its
symmetric closure, since `should_merge` is symmetric only on the
non-overflowing regions the step carries.) -/
theorem nf_of_pairwise (d : ℕ) (l : List DamageRegion) (h : PairwiseNM d l) :
    MNormal d ↑l := by
  rintro T ⟨a, b, K, hna, hnb, hab, hS, -⟩
  have hco : (↑l : Multiset DamageRegion) = ↑(a :: b :: K.toList) := by
    rw [hS, ← Multiset.coe_toList K, Multiset.cons_coe b, Multiset.cons_coe a,
      Multiset.coe_toList K]
  have hperm := Multiset.coe_eq_coe.mp hco
  have h1 : l.Pairwise
      fun x y => shouldMerge d x y = false ∨ shouldMerge d y x = false :=
    h.imp Or.inl
  have h2 : (a :: b :: K.toList).Pairwise
      fun x y => shouldMerge d x y = false ∨ shouldMerge d y x = false :=
    (hperm.pairwise_iff fun hxy => hxy.symm).mp h1
  have hrel := List.rel_of_pairwise_cons h2 (List.mem_cons_self b K.toList)
  rcases hrel with hf | hf
  · rw [hab] at hf
    exact Bool.noConfusion hf
  · rw [shouldMerge_symm d a b hna hnb] at hab
    rw [hab] at hf
    exact Bool.noConfusion hf

/-- Cap elimination: as long as the regions added fit under `max_regions`, the
tracker-level fold is the bare `add_with_merge` fold. -/
theorem add_regions_eq_foldl (d : ℕ) :
    ∀ (l : List DamageRegion) (t : DamageTracker),
      t.enable_merging = true → t.merge_distance = d →
      t.regions.length + l.length ≤ t.max_regions →
      (t.add_regions l).regions = l.foldl (addWithMerge d) t.regions := by
  intro l
  induction l with
  | nil => intro t _ _ _; rfl
  | cons r rest ih =>
    intro t hm hd hlen
    have hcap : ¬ t.max_regions ≤ t.regions.length := by
      simp only [List.length_cons] at hlen
      omega
    have hstep : t.add_region r =
        { t with
          regions := addWithMerge d t.regions r
          stats := { t.stats with total_regions := t.stats.total_regions + 1 } } := by
      rw [DamageTracker.add_region, if_neg hcap, hm, hd]
      simp
    show ((t.add_region r).add_regions rest).regions = _
    rw [hstep, List.foldl_cons]
    refine ih _ hm hd ?_
    have := addWithMerge_length d t.regions r
    simp only [List.length_cons] at hlen
    simpa using by omega

/-- C3 counterexample: with `max_regions = 1` (any tracker from
`with_settings`, merging enabled), `add_region` silently drops the second
region, so adding `{(0,0,1,1), (100,100,1,1)}` in the two orders leaves
different final sets (`{(0,0,1,1)}` versus `{(100,100,1,1)}`): the final set
is not a function of the multiset of inputs. -/
theorem add_order_dependent_cex :
    (↑((DamageTracker.with_settings (1 / 2) 32 1).add_regions
        [⟨0, 0, 1, 1⟩, ⟨100, 100, 1, 1⟩]).regions : Multiset DamageRegion) ≠
      ↑((DamageTracker.with_settings (1 / 2) 32 1).add_regions
        [⟨100, 100, 1, 1⟩, ⟨0, 0, 1, 1⟩]).regions := by
  intro h
  have e1 : ((DamageTracker.with_settings (1 / 2) 32 1).add_regions
      [⟨0, 0, 1, 1⟩, ⟨100, 100, 1, 1⟩]).regions = [⟨0, 0, 1, 1⟩] := by decide
  have e2 : ((DamageTracker.with_settings (1 / 2) 32 1).add_regions
      [⟨100, 100, 1, 1⟩, ⟨0, 0, 1, 1⟩]).regions = [⟨100, 100, 1, 1⟩] := by decide
  rw [e1, e2] at h
  have hperm := Multiset.coe_eq_coe.mp h
  have := hperm.mem_iff.mp (List.mem_singleton_self (⟨0, 0, 1, 1⟩ : DamageRegion))
  rw [List.mem_singleton] at this
  exact absurd this (by decide)

/-- C3 amended: provided the number of added regions does not exceed
`max_regions` (so the cap never drops an addition) and no added region's
`u32` edge sums overflow (`x + width < 2^32` and `y + height < 2^32`, true of
every region of a real frame), the final region set of a merging-enabled
tracker is order-independent — a function of the multiset of inputs and
`merge_distance` — and in it no two regions overlap or lie within
`merge_distance` on both axes, all in the release-build wrapping u32
arithmetic of `should_merge` and `merge` (with an overflowing edge,
`should_merge` is not even symmetric). Proof: each `add_with_merge` performs
rewriting steps of the terminating, locally confluent bounding-box merging
system, and lands in a normal form; normal forms are unique. -/
theorem add_with_merge_order_invariant (th : ℚ) (d maxR : ℕ)
    (l1 l2 : List DamageRegion) (hperm : l1.Perm l2) (hlen : l1.length ≤ maxR)
    (hrep : ∀ r ∈ l1, NoWrap r) :
    (↑((DamageTracker.with_settings th d maxR).add_regions l1).regions
        : Multiset DamageRegion) =
      ↑((DamageTracker.with_settings th d maxR).add_regions l2).regions ∧
      PairwiseNM d ((DamageTracker.with_settings th d maxR).add_regions l1).regions := by
  have hlen2 : l2.length ≤ maxR := hperm.length_eq ▸ hlen
  have e1 := add_regions_eq_foldl d l1 (DamageTracker.with_settings th d maxR)
    rfl rfl (by simpa [DamageTracker.with_settings, DamageTracker.new] using hlen)
  have e2 := add_regions_eq_foldl d l2 (DamageTracker.with_settings th d maxR)
    rfl rfl (by simpa [DamageTracker.with_settings, DamageTracker.new] using hlen2)
  have hrep2 : ∀ r ∈ l2, NoWrap r := fun r hr => hrep r (hperm.mem_iff.mpr hr)
  have hnilrep : ∀ x ∈ ([] : List DamageRegion), NoWrap x :=
    fun x hx => (List.not_mem_nil x hx).elim
  have pw1 : PairwiseNM d (l1.foldl (addWithMerge d) []) :=
    foldl_addWithMerge_pairwise d l1 [] hnilrep hrep List.Pairwise.nil
  have pw2 : PairwiseNM d (l2.foldl (addWithMerge d) []) :=
    foldl_addWithMerge_pairwise d l2 [] hnilrep hrep2 List.Pairwise.nil
  have r1 : Relation.ReflTransGen (MStep d) ↑l1 ↑(l1.foldl (addWithMerge d) []) := by
    have := foldl_addWithMerge_rtg d l1 [] hnilrep hrep
    simpa using this
  have r2 : Relation.ReflTransGen (MStep d) ↑l1 ↑(l2.foldl (addWithMerge d) []) := by
    have := foldl_addWithMerge_rtg d l2 [] hnilrep hrep2
    rw [show (↑l1 : Multiset DamageRegion) = ↑l2 from Multiset.coe_eq_coe.mpr hperm]
    simpa using this
  have huniq := mstep_normal_unique d r1 r2
    (nf_of_pairwise d _ pw1) (nf_of_pairwise d _ pw2)
  rw [e1, e2]
  exact ⟨huniq, pw1⟩

/-- C3 amended, witness. -/
theorem add_with_merge_order_invariant_witness :
    ([⟨0, 0, 10, 10⟩, ⟨100, 100, 5, 5⟩] : List DamageRegion).Perm
        [⟨100, 100, 5, 5⟩, ⟨0, 0, 10, 10⟩] ∧
      ([⟨0, 0, 10, 10⟩, ⟨100, 100, 5, 5⟩] : List DamageRegion).length ≤ 64 ∧
      (∀ r ∈ ([⟨0, 0, 10, 10⟩, ⟨100, 100, 5, 5⟩] : List DamageRegion), NoWrap r) ∧
      ((↑((DamageTracker.with_settings (1 / 2) 32 64).add_regions
            [⟨0, 0, 10, 10⟩, ⟨100, 100, 5, 5⟩]).regions : Multiset DamageRegion) =
          ↑((DamageTracker.with_settings (1 / 2) 32 64).add_regions
            [⟨100, 100, 5, 5⟩, ⟨0, 0, 10, 10⟩]).regions ∧
        PairwiseNM 32 ((DamageTracker.with_settings (1 / 2) 32 64).add_regions
          [⟨0, 0, 10, 10⟩, ⟨100, 100, 5, 5⟩]).regions) :=
  ⟨by decide, by decide, by decide,
    add_with_merge_order_invariant (1 / 2) 32 64
      [⟨0, 0, 10, 10⟩, ⟨100, 100, 5, 5⟩] [⟨100, 100, 5, 5⟩, ⟨0, 0, 10, 10⟩]
      (by decide) (by decide) (by decide)⟩

/-! ## YUV conversion (`crates/lamco-pipewire/src/yuv.rs`)

Byte buffers are `List ℕ` of `u8` values; a Rust panic (failed `assert!` or
out-of-bounds index) is `none`. The per-pixel writes at `dst_idx = (y*w+x)*4`
fill the output strictly in row-major order, so the destination buffer is the
concatenation of the 4-byte pixel groups in loop order. -/

/-- Modelled from the spec: `PixelFormat` — the crate's `format` module is not
under `src/`; the variants are those listed in §3 of the spec and matched in
`YuvConverter::convert_to_bgra`. -/
inductive PixelFormat
  | BGRA | BGRx | RGBA | RGBx | RGB | BGR | NV12 | I420 | YUY2
deriving DecidableEq

/-- `yuv_to_rgb`: BT.601 integer math. `>> 8` on `i32` is an arithmetic
shift, i.e. floor division by 256 (`Int.fdiv`); then `clamp(0, 255)` and the
exact `as u8` cast. -/
def yuv_to_rgb (y u v : ℕ) : ℕ × ℕ × ℕ :=
  let y' : ℤ := (y : ℤ) - 16
  let u' : ℤ := (u : ℤ) - 128
  let v' : ℤ := (v : ℤ) - 128
  let r := Int.fdiv (298 * y' + 409 * v' + 128) 256
  let g := Int.fdiv (298 * y' - 100 * u' - 208 * v' + 128) 256
  let b := Int.fdiv (298 * y' + 516 * u' + 128) 256
  ((min (max r 0) 255).toNat, (min (max g 0) 255).toNat, (min (max b 0) 255).toNat)

/-- One pixel of the `nv12_to_bgra` loop body (indices as in the source);
`none` models an out-of-bounds panic. -/
def nv12PixelBgra (yPlane uvPlane : List ℕ) (w y x : ℕ) : Option (List ℕ) := do
  let yIdx := y * w + x
  let uvIdx := (y / 2) * w + (x / 2) * 2
  let yVal ← yPlane[yIdx]?
  let uVal ← uvPlane[uvIdx]?
  let vVal ← uvPlane[uvIdx + 1]?
  let rgb := yuv_to_rgb yVal uVal vVal
  pure [rgb.2.2, rgb.2.1, rgb.1, 255]

/-- `nv12_to_bgra`. The source `assert!`s that the buffer holds the Y plane
plus the interleaved UV plane and otherwise panics (`none`). -/
def nv12_to_bgra (src : List ℕ) (width height : ℕ) : Option (List ℕ) :=
  let w := width
  let h := height
  let yPlaneSize := w * h
  let uvPlaneSize := w * h / 2
  if src.length < yPlaneSize + uvPlaneSize then none
  else
    let yPlane := src.take yPlaneSize
    let uvPlane := (src.drop yPlaneSize).take uvPlaneSize
    ((List.range h).mapM fun y =>
        (List.range w).mapM fun x => nv12PixelBgra yPlane uvPlane w y x).map
      fun rows => rows.flatten.flatten

/-- One pixel of the `i420_to_bgra` loop body. -/
def i420PixelBgra (yPlane uPlane vPlane : List ℕ) (w y x : ℕ) : Option (List ℕ) := do
  let yIdx := y * w + x
  let uvIdx := (y / 2) * (w / 2) + x / 2
  let yVal ← yPlane[yIdx]?
  let uVal ← uPlane[uvIdx]?
  let vVal ← vPlane[uvIdx]?
  let rgb := yuv_to_rgb yVal uVal vVal
  pure [rgb.2.2, rgb.2.1, rgb.1, 255]

/-- `i420_to_bgra`. -/
def i420_to_bgra (src : List ℕ) (width height : ℕ) : Option (List ℕ) :=
  let w := width
  let h := height
  let yPlaneSize := w * h
  let uvPlaneSize := (w / 2) * (h / 2)
  if src.length < yPlaneSize + uvPlaneSize * 2 then none
  else
    let yPlane := src.take yPlaneSize
    let uPlane := (src.drop yPlaneSize).take uvPlaneSize
    let vPlane := (src.drop (yPlaneSize + uvPlaneSize)).take uvPlaneSize
    ((List.range h).mapM fun y =>
        (List.range w).mapM fun x => i420PixelBgra yPlane uPlane vPlane w y x).map
      fun rows => rows.flatten.flatten

/-- One macro pixel (two output pixels) of the `yuy2_to_bgra` loop body; the
source loop steps `x` by 2, so `xi` counts macro pixels and `x = 2 * xi`. -/
def yuy2MacroPixel (src : List ℕ) (w y xi : ℕ) : Option (List ℕ) := do
  let x := 2 * xi
  let srcIdx := (y * w + x) * 2
  let y0 ← src[srcIdx]?
  let u ← src[srcIdx + 1]?
  let y1 ← src[srcIdx + 2]?
  let v ← src[srcIdx + 3]?
  let p0 := yuv_to_rgb y0 u v
  let p1 := yuv_to_rgb y1 u v
  pure [p0.2.2, p0.2.1, p0.1, 255, p1.2.2, p1.2.1, p1.1, 255]

/-- `yuy2_to_bgra`: `assert!`s an even width and a `w*h*2`-byte buffer. -/
def yuy2_to_bgra (src : List ℕ) (width height : ℕ) : Option (List ℕ) :=
  let w := width
  let h := height
  if w % 2 ≠ 0 then none
  else if src.length < w * h * 2 then none
  else
    ((List.range h).mapM fun y =>
        (List.range (w / 2)).mapM fun xi => yuy2MacroPixel src w y xi).map
      fun rows => rows.flatten.flatten

/-- `YuvConverter::convert_to_bgra`. Outer `none` is a panic inside a
converter; `some none` is the source's `None` for formats needing no
conversion (the RGB family arm and the catch-all arm). -/
def YuvConverter.convert_to_bgra (src : List ℕ) (width height : ℕ)
    (format : PixelFormat) : Option (Option (List ℕ)) :=
  match format with
  | .NV12 => (nv12_to_bgra src width height).map some
  | .I420 => (i420_to_bgra src width height).map some
  | .YUY2 => (yuy2_to_bgra src width height).map some
  | .BGRA | .RGBA | .BGRx | .RGBx => some none
  | .RGB | .BGR => some none

/-- `YuvConverter::needs_conversion`. -/
def YuvConverter.needs_conversion : PixelFormat → Bool
  | .NV12 | .I420 | .YUY2 => true
  | _ => false

/-- The plane-sum (minimum source size) each YUV converter asserts. -/
def yuvPlaneSum (format : PixelFormat) (w h : ℕ) : ℕ :=
  match format with
  | .NV12 => w * h + w * h / 2
  | .I420 => w * h + (w / 2) * (h / 2) * 2
  | .YUY2 => w * h * 2
  | _ => 0

/-- C4 counterexample: with width = height = 0 — where the claim requires a
typed `InvalidDimensions` error — `convert_to_bgra` on NV12 performs no
dimension check and succeeds, returning an empty BGRA buffer. (The code has no
typed error values at all; `yuv.rs` returns `Option` and panics via
`assert!`.) -/
theorem convert_zero_dims_no_error_cex :
    YuvConverter.convert_to_bgra [] 0 0 PixelFormat.NV12 = some (some []) := by
  decide

/-- C4 amended: `convert_to_bgra` surfaces no typed errors. For the YUV
formats it panics (modelled `none`) whenever the source is smaller than the
plane-sum — the documented `assert!` behaviour — and it performs no dimension
validation: zero dimensions satisfy the asserts vacuously and yield an empty
buffer. -/
theorem convert_to_bgra_no_typed_errors :
    (∀ (src : List ℕ) (w h : ℕ) (fmt : PixelFormat),
        YuvConverter.needs_conversion fmt = true →
        src.length < yuvPlaneSum fmt w h →
        YuvConverter.convert_to_bgra src w h fmt = none) ∧
      ∀ (src : List ℕ) (fmt : PixelFormat),
        YuvConverter.needs_conversion fmt = true →
        YuvConverter.convert_to_bgra src 0 0 fmt = some (some []) := by
  constructor
  · intro src w h fmt hfmt hsmall
    cases fmt <;> simp [YuvConverter.needs_conversion] at hfmt <;>
      simp [YuvConverter.convert_to_bgra, nv12_to_bgra, i420_to_bgra, yuy2_to_bgra,
        yuvPlaneSum] at hsmall ⊢
    · intro h'
      omega
    · intro h'
      omega
    · intro hw
      omega
  · intro src fmt hfmt
    cases fmt <;> simp [YuvConverter.needs_conversion] at hfmt <;>
        simp [YuvConverter.convert_to_bgra, nv12_to_bgra, i420_to_bgra, yuy2_to_bgra] <;>
      exact ⟨[], rfl, by simp⟩

/-- C4 amended, witness. -/
theorem convert_to_bgra_no_typed_errors_witness :
    (YuvConverter.needs_conversion PixelFormat.NV12 = true ∧
        ([] : List ℕ).length < yuvPlaneSum PixelFormat.NV12 2 2 ∧
        YuvConverter.convert_to_bgra [] 2 2 PixelFormat.NV12 = none) ∧
      YuvConverter.convert_to_bgra [] 0 0 PixelFormat.NV12 = some (some []) :=
  ⟨⟨by decide, by decide,
      convert_to_bgra_no_typed_errors.1 [] 2 2 PixelFormat.NV12 (by decide) (by decide)⟩,
    convert_to_bgra_no_typed_errors.2 [] PixelFormat.NV12 (by decide)⟩

/-- C5. Black input (`Y=16, U=V=128`) converts to exactly `(B,G,R,A) =
(0,0,0,255)` for every pixel (checked on a 2×2 NV12 frame, as in the source's
tests), and white input (`Y=235, U=V=128`) converts to channels within 5 of
255 with alpha 255 (here exactly 255). -/
theorem yuv_black_white_conversion :
    yuv_to_rgb 16 128 128 = (0, 0, 0) ∧
      nv12_to_bgra [16, 16, 16, 16, 128, 128] 2 2 =
        some [0, 0, 0, 255, 0, 0, 0, 255, 0, 0, 0, 255, 0, 0, 0, 255] ∧
      ∃ r g b, yuv_to_rgb 235 128 128 = (r, g, b) ∧
        255 - r ≤ 5 ∧ 255 - g ≤ 5 ∧ 255 - b ≤ 5 ∧ r ≤ 255 ∧ g ≤ 255 ∧ b ≤ 255 ∧
        nv12_to_bgra [235, 235, 235, 235, 128, 128] 2 2 =
          some [b, g, r, 255, b, g, r, 255, b, g, r, 255, b, g, r, 255] := by
  refine ⟨by decide, by decide, 255, 255, 255, by decide, by decide, by decide,
    by decide, by decide, by decide, by decide, by decide⟩

/-! ## Adaptive bitrate control (`crates/lamco-pipewire/src/bitrate.rs` and
`config.rs`)

`u32`/`u64`/`usize` arithmetic wraps where the source can overflow in release
builds (`% 2^32`, `% 2^64`); `f32`/`f64` values (congestion level, the bitrate
scaling factors) are idealised as exact `ℚ`. `Instant` fields are dropped: the
"adjustment interval elapsed" test of `record_frame` becomes a boolean oracle
argument, and `FrameRecord.timestamp` is omitted. A panic (integer division by
zero for `target_fps = 0`, or `clamp` with `min > max`) is `none`. -/

/-- `QualityPreset` from `config.rs`. -/
inductive QualityPreset
  | LowLatency | Balanced | HighQuality
deriving DecidableEq

/-- `AdaptiveBitrateConfig` from `config.rs`. -/
structure AdaptiveBitrateConfig where
  min_bitrate_kbps : ℕ
  max_bitrate_kbps : ℕ
  target_fps : ℕ
  quality_preset : QualityPreset
  calculation_window : ℕ
deriving DecidableEq

/-- `BitrateStats`. -/
structure BitrateStats where
  frames_recorded : ℕ
  frames_dropped : ℕ
  frames_skipped : ℕ
  total_bytes : ℕ
  bitrate_increases : ℕ
  bitrate_decreases : ℕ
  avg_encode_time_us : ℕ
  avg_frame_size : ℕ
  estimated_bitrate_kbps : ℕ
deriving DecidableEq

def BitrateStats.default : BitrateStats := ⟨0, 0, 0, 0, 0, 0, 0, 0, 0⟩

/-- `BitrateController`; `frame_history` holds
`(encode_time_us, frame_size)` pairs. -/
structure BitrateController where
  config : AdaptiveBitrateConfig
  current_bitrate : ℕ
  frame_history : List (ℕ × ℕ)
  congestion_level : ℚ
  skip_counter : ℕ
  stats : BitrateStats
deriving DecidableEq

/-- The `f32 → u32` `as`-cast: saturating, truncating toward zero (floor on
the non-negative values arising here); the `f32` product itself is idealised
as an exact rational. -/
def satCastU32 (q : ℚ) : ℕ :=
  if q ≤ 0 then 0 else min q.floor.toNat (2 ^ 32 - 1)

namespace BitrateController

/-- `BitrateController::new`: initial bitrate is the midpoint; the `u32`
addition `min + max` wraps in release builds. -/
def new (config : AdaptiveBitrateConfig) : BitrateController :=
  { config := config
    current_bitrate := (config.min_bitrate_kbps + config.max_bitrate_kbps) % 2 ^ 32 / 2
    frame_history := []
    congestion_level := 0
    skip_counter := 0
    stats := BitrateStats.default }

/-- `BitrateController::recommended_bitrate`. -/
def recommended_bitrate (c : BitrateController) : ℕ :=
  c.current_bitrate

/-- The preset-dependent RTT target of `record_network_feedback`. -/
def targetRtt : QualityPreset → ℕ
  | .LowLatency => 50
  | .Balanced => 150
  | .HighQuality => 300

/-- `BitrateController::adjust_bitrate`. `none` models the panics: `u64`
division by zero when `target_fps = 0`, and `u32::clamp` when
`min_bitrate_kbps > max_bitrate_kbps`. The `f64` ratio
`avg_encode_us / target_frame_time_us` compares `< 0.5` as false when the
divisor is zero (`inf`/`NaN`), hence the explicit `≠ 0` conjunct. The interim
triple is `(new_bitrate, increase delta, decrease delta)`. -/
def adjust_bitrate (c : BitrateController) : Option BitrateController :=
  if c.frame_history = [] then some c
  else if c.config.target_fps = 0 then none
  else
    let total_time := (c.frame_history.map Prod.fst).sum % 2 ^ 64
    let total_size := (c.frame_history.map Prod.snd).sum % 2 ^ 64
    let count := c.frame_history.length
    let avg_encode_us := total_time / count
    let avg_frame_bytes := total_size / count
    let target_frame_time_us := 1000000 / c.config.target_fps
    let estimated_bitrate_kbps := avg_frame_bytes * 8 * c.config.target_fps % 2 ^ 64 / 1000
    let branch : ℕ × ℕ × ℕ :=
      if 3 / 10 < c.congestion_level then
        (satCastU32 ((c.current_bitrate : ℚ) * (1 - c.congestion_level * (2 / 10))), 0, 1)
      else if target_frame_time_us ≠ 0 ∧
          (avg_encode_us : ℚ) / (target_frame_time_us : ℚ) < 1 / 2 ∧
          c.congestion_level < 1 / 10 then
        (satCastU32 ((c.current_bitrate : ℚ) * (11 / 10)), 1, 0)
      else (c.current_bitrate, 0, 0)
    if c.config.max_bitrate_kbps < c.config.min_bitrate_kbps then none
    else
      some { c with
        current_bitrate :=
          min (max branch.1 c.config.min_bitrate_kbps) c.config.max_bitrate_kbps
        stats := { c.stats with
          bitrate_increases := c.stats.bitrate_increases + branch.2.1
          bitrate_decreases := c.stats.bitrate_decreases + branch.2.2
          avg_encode_time_us := avg_encode_us
          avg_frame_size := avg_frame_bytes
          estimated_bitrate_kbps := estimated_bitrate_kbps % 2 ^ 32 } }

/-- The `while len > calculation_window { pop_front }` truncation of
`record_frame`. -/
def trimToWindow (l : List (ℕ × ℕ)) (window : ℕ) : List (ℕ × ℕ) :=
  l.drop (l.length - window)

/-- `BitrateController::record_frame`; `adjust_now` is the time oracle for
"`last_adjustment.elapsed() ≥ adjustment_interval_ms`". -/
def record_frame (c : BitrateController) (encode_time_us frame_size : ℕ)
    (adjust_now : Bool) : Option BitrateController :=
  let c1 := { c with
    frame_history :=
      trimToWindow (c.frame_history ++ [(encode_time_us, frame_size)])
        c.config.calculation_window
    stats := { c.stats with
      frames_recorded := (c.stats.frames_recorded + 1) % 2 ^ 64
      total_bytes := (c.stats.total_bytes + frame_size) % 2 ^ 64 } }
  if adjust_now then c1.adjust_bitrate else some c1

/-- `BitrateController::record_dropped_frame`. -/
def record_dropped_frame (c : BitrateController) : BitrateController :=
  { c with
    stats := { c.stats with frames_dropped := (c.stats.frames_dropped + 1) % 2 ^ 64 }
    congestion_level := min (c.congestion_level + 2 / 10) 1 }

/-- `BitrateController::record_network_feedback`. -/
def record_network_feedback (c : BitrateController) (packet_loss_ratio : ℚ)
    (rtt_ms : ℕ) : BitrateController :=
  let c1 :=
    if 1 / 20 < packet_loss_ratio then
      { c with congestion_level := min (c.congestion_level + packet_loss_ratio) 1 }
    else c
  let target := targetRtt c.config.quality_preset
  let rtt_factor : ℚ := ((rtt_ms - target : ℕ) : ℚ) / (target : ℚ)
  let c2 :=
    if target < rtt_ms then
      { c1 with congestion_level := min (c1.congestion_level + rtt_factor * (1 / 10)) 1 }
    else c1
  if packet_loss_ratio < 1 / 100 ∧ rtt_ms < target then
    { c2 with congestion_level := max (c2.congestion_level - 1 / 20) 0 }
  else c2

/-- `BitrateController::should_skip_frame` (returns the decision and the
mutated controller). -/
def should_skip_frame (c : BitrateController) : Bool × BitrateController :=
  if c.congestion_level < 1 / 2 then (false, { c with skip_counter := 0 })
  else
    let skip_threshold : ℕ :=
      match c.config.quality_preset with
      | .LowLatency => 2
      | .Balanced => 3
      | .HighQuality => 4
    let counter := (c.skip_counter + 1) % 2 ^ 32
    if skip_threshold ≤ counter then
      (true, { c with
        skip_counter := 0
        stats := { c.stats with frames_skipped := (c.stats.frames_skipped + 1) % 2 ^ 64 } })
    else (false, { c with skip_counter := counter })

/-- `BitrateController::reset`. -/
def reset (c : BitrateController) : BitrateController :=
  { c with
    current_bitrate :=
      (c.config.min_bitrate_kbps + c.config.max_bitrate_kbps) % 2 ^ 32 / 2
    frame_history := []
    congestion_level := 0
    skip_counter := 0
    stats := BitrateStats.default }

end BitrateController

/-- One public mutating call on a `BitrateController`. -/
inductive BitrateOp
  | recordFrame (encode_time_us frame_size : ℕ) (adjust_now : Bool)
  | recordDroppedFrame
  | recordNetworkFeedback (packet_loss_ratio : ℚ) (rtt_ms : ℕ)
  | shouldSkipFrame
  | reset

def applyBitrateOp (c : BitrateController) : BitrateOp → Option BitrateController
  | .recordFrame t sz now => c.record_frame t sz now
  | .recordDroppedFrame => some c.record_dropped_frame
  | .recordNetworkFeedback l r => some (c.record_network_feedback l r)
  | .shouldSkipFrame => some c.should_skip_frame.2
  | .reset => some c.reset

def runBitrateOps (c : BitrateController) : List BitrateOp → Option BitrateController
  | [] => some c
  | op :: ops => (applyBitrateOp c op).bind fun c' => runBitrateOps c' ops

/-- C6 counterexample: at `min = max = 2^31` (so `min ≤ max`), the `u32`
addition in `BitrateController::new` wraps and the initial bitrate is `0` —
not `(min+max)/2 = 2^31` and below `min`. -/
theorem bitrate_initial_overflow_cex :
    (BitrateController.new ⟨2 ^ 31, 2 ^ 31, 30, QualityPreset.Balanced, 30⟩).recommended_bitrate
        = 0 ∧
      ¬(2 ^ 31 ≤ (BitrateController.new
          ⟨2 ^ 31, 2 ^ 31, 30, QualityPreset.Balanced, 30⟩).recommended_bitrate) ∧
      (BitrateController.new
          ⟨2 ^ 31, 2 ^ 31, 30, QualityPreset.Balanced, 30⟩).recommended_bitrate ≠
        (2 ^ 31 + 2 ^ 31) / 2 := by
  refine ⟨rfl, by decide, by decide⟩

/-- The invariant carried through every `BitrateController` operation: the
configuration is never mutated and the current bitrate stays within the
configured band. -/
def BitrateInv (cfg : AdaptiveBitrateConfig) (c : BitrateController) : Prop :=
  c.config = cfg ∧ cfg.min_bitrate_kbps ≤ c.current_bitrate ∧
    c.current_bitrate ≤ cfg.max_bitrate_kbps

theorem adjust_bitrate_spec (c c' : BitrateController)
    (hadj : c.adjust_bitrate = some c') :
    c'.config = c.config ∧
      (c' = c ∨ (c.config.min_bitrate_kbps ≤ c'.current_bitrate ∧
        c'.current_bitrate ≤ c.config.max_bitrate_kbps)) := by
  unfold BitrateController.adjust_bitrate at hadj
  split at hadj
  · injection hadj with h
    subst h
    exact ⟨rfl, Or.inl rfl⟩
  · split at hadj
    · exact Option.noConfusion hadj
    · dsimp only at hadj
      split at hadj
      · exact Option.noConfusion hadj
      · rename_i hclamp
        injection hadj with h
        subst h
        refine ⟨rfl, Or.inr ⟨?_, ?_⟩⟩ <;> dsimp only <;> omega

theorem applyBitrateOp_preserves (cfg : AdaptiveBitrateConfig)
    (hnoov : cfg.min_bitrate_kbps + cfg.max_bitrate_kbps < 2 ^ 32)
    (op : BitrateOp) (c c' : BitrateController) (h : BitrateInv cfg c)
    (happ : applyBitrateOp c op = some c') : BitrateInv cfg c' := by
  obtain ⟨hcfg, hlo, hhi⟩ := h
  cases op with
  | recordFrame t sz now =>
    dsimp only [applyBitrateOp, BitrateController.record_frame] at happ
    cases now with
    | false =>
      injection happ with h'
      subst h'
      exact ⟨hcfg, hlo, hhi⟩
    | true =>
      rw [if_pos rfl] at happ
      obtain ⟨hc', hrange⟩ := adjust_bitrate_spec _ _ happ
      rcases hrange with rfl | ⟨hlo', hhi'⟩
      · exact ⟨hcfg, hlo, hhi⟩
      · refine ⟨by rw [hc']; exact hcfg, ?_, ?_⟩
        · rw [← hcfg]; exact hlo'
        · rw [← hcfg]; exact hhi'
  | recordDroppedFrame =>
    injection happ with h'
    subst h'
    exact ⟨hcfg, hlo, hhi⟩
  | recordNetworkFeedback l r =>
    injection happ with h'
    subst h'
    unfold BitrateController.record_network_feedback
    dsimp only
    split <;> split <;> split <;> exact ⟨hcfg, hlo, hhi⟩
  | shouldSkipFrame =>
    injection happ with h'
    subst h'
    unfold BitrateController.should_skip_frame
    dsimp only
    split
    · exact ⟨hcfg, hlo, hhi⟩
    · split <;> exact ⟨hcfg, hlo, hhi⟩
  | reset =>
    injection happ with h'
    subst h'
    refine ⟨hcfg, ?_, ?_⟩ <;>
      dsimp only [BitrateController.reset] <;> rw [hcfg] <;>
      rw [Nat.mod_eq_of_lt hnoov] <;> omega

theorem runBitrateOps_preserves (cfg : AdaptiveBitrateConfig)
    (hnoov : cfg.min_bitrate_kbps + cfg.max_bitrate_kbps < 2 ^ 32) :
    ∀ (ops : List BitrateOp) (c c' : BitrateController), BitrateInv cfg c →
      runBitrateOps c ops = some c' → BitrateInv cfg c' := by
  intro ops
  induction ops with
  | nil =>
    intro c c' h hrun
    injection hrun with h'
    subst h'
    exact h
  | cons op rest ih =>
    intro c c' h hrun
    unfold runBitrateOps at hrun
    rcases happ : applyBitrateOp c op with _ | c1
    · rw [happ] at hrun
      exact Option.noConfusion hrun
    · rw [happ] at hrun
      exact ih c1 c' (applyBitrateOp_preserves cfg hnoov op c c1 h happ) hrun

/-- C6 amended: for a configuration with `min ≤ max` whose `u32` sum does not
overflow (`min + max < 2^32`), the initial recommendation is the midpoint
`(min+max)/2`, which lies in `[min, max]`, and after every panic-free sequence
of `record_frame` / `record_network_feedback` / `record_dropped_frame` /
`should_skip_frame` / `reset` calls the recommendation stays in `[min, max]`
(the adjustment clamps, and nothing else writes the bitrate). -/
theorem recommended_bitrate_in_range (cfg : AdaptiveBitrateConfig)
    (hminmax : cfg.min_bitrate_kbps ≤ cfg.max_bitrate_kbps)
    (hnoov : cfg.min_bitrate_kbps + cfg.max_bitrate_kbps < 2 ^ 32) :
    ((BitrateController.new cfg).recommended_bitrate =
        (cfg.min_bitrate_kbps + cfg.max_bitrate_kbps) / 2 ∧
      cfg.min_bitrate_kbps ≤ (BitrateController.new cfg).recommended_bitrate ∧
      (BitrateController.new cfg).recommended_bitrate ≤ cfg.max_bitrate_kbps) ∧
    ∀ (ops : List BitrateOp) (c : BitrateController),
      runBitrateOps (BitrateController.new cfg) ops = some c →
      cfg.min_bitrate_kbps ≤ c.recommended_bitrate ∧
        c.recommended_bitrate ≤ cfg.max_bitrate_kbps := by
  have hmid : (BitrateController.new cfg).recommended_bitrate =
      (cfg.min_bitrate_kbps + cfg.max_bitrate_kbps) / 2 := by
    dsimp only [BitrateController.new, BitrateController.recommended_bitrate]
    rw [Nat.mod_eq_of_lt hnoov]
  have hinv : BitrateInv cfg (BitrateController.new cfg) := by
    refine ⟨rfl, ?_, ?_⟩ <;> rw [show (BitrateController.new cfg).current_bitrate =
      (cfg.min_bitrate_kbps + cfg.max_bitrate_kbps) / 2 from hmid] <;> omega
  refine ⟨⟨hmid, hinv.2⟩, ?_⟩
  intro ops c hrun
  exact (runBitrateOps_preserves cfg hnoov ops _ c hinv hrun).2

/-- C6 amended, witness (the crate's default bitrate configuration). -/
theorem recommended_bitrate_in_range_witness :
    (500 ≤ 50000 ∧ (500 + 50000 : ℕ) < 2 ^ 32) ∧
      (((BitrateController.new
            ⟨500, 50000, 30, QualityPreset.Balanced, 30⟩).recommended_bitrate =
          (500 + 50000) / 2 ∧
        500 ≤ (BitrateController.new
            ⟨500, 50000, 30, QualityPreset.Balanced, 30⟩).recommended_bitrate ∧
        (BitrateController.new
            ⟨500, 50000, 30, QualityPreset.Balanced, 30⟩).recommended_bitrate ≤ 50000) ∧
      ∀ (ops : List BitrateOp) (c : BitrateController),
        runBitrateOps (BitrateController.new
          ⟨500, 50000, 30, QualityPreset.Balanced, 30⟩) ops = some c →
        500 ≤ c.recommended_bitrate ∧ c.recommended_bitrate ≤ 50000) :=
  ⟨⟨by decide, by decide⟩,
    recommended_bitrate_in_range ⟨500, 50000, 30, QualityPreset.Balanced, 30⟩
      (by decide) (by decide)⟩

/-! ## Clipboard bridge (`crates/lamco-portal/src/clipboard_sink.rs`) -/

/-- A portal clipboard call issued by the transfer listener
(`Clipboard.SelectionWrite` / `Clipboard.SelectionWriteDone`). -/
inductive PortalCall
  | selectionWrite (serial : ℕ) (data : List ℕ)
  | selectionWriteDone (serial : ℕ) (success : Bool)
deriving DecidableEq

/-- Lookup in the `pending_data` map (`HashMap<String, PendingData>`,
modelled as an association list with unique keys; the `queued_at` `Instant`
is dropped, only the bytes are kept). -/
def lookupMime (pending : List (String × List ℕ)) (mime : String) :
    Option (List ℕ) :=
  (pending.find? fun p => p.1 == mime).map Prod.snd

/-- `HashMap::remove` on the pending map (keys are unique, so filtering the
key out is removal). -/
def eraseMime (pending : List (String × List ℕ)) (mime : String) :
    List (String × List ℕ) :=
  pending.filter fun p => !(p.1 == mime)

/-- One iteration of the `start_transfer_listener` loop for a
`SelectionTransfer { mime, serial }` event: look up pending data for the MIME
type; if present, `SelectionWrite(serial, data)` and remove the entry only on
success; if absent, `SelectionWriteDone(serial, false)`. `write_ok` is the
oracle for the portal write outcome. Returns the calls made and the new
pending map. -/
def process_selection_transfer (pending : List (String × List ℕ))
    (mime : String) (serial : ℕ) (write_ok : Bool) :
    List PortalCall × List (String × List ℕ) :=
  match lookupMime pending mime with
  | some data =>
    if write_ok then ([PortalCall.selectionWrite serial data], eraseMime pending mime)
    else ([PortalCall.selectionWrite serial data], pending)
  | none => ([PortalCall.selectionWriteDone serial false], pending)

theorem lookupMime_erase (pending : List (String × List ℕ)) (mime : String) :
    lookupMime (eraseMime pending mime) mime = none := by
  induction pending with
  | nil => rfl
  | cons p rest ih =>
    by_cases h : p.1 == mime
    · simp only [eraseMime, List.filter, h]
      exact ih
    · simp only [eraseMime, lookupMime, List.filter, h] at ih ⊢
      simp only [List.find?, h]
      exact ih

/-- C7. On a `SelectionTransfer{mime, serial}` event: when data is queued for
`mime` the listener issues exactly `SelectionWrite(serial, data)` and removes
the pending entry exactly when the write succeeds (afterwards the MIME type no
longer resolves); when nothing is queued it issues exactly
`SelectionWriteDone(serial, false)` and leaves the map unchanged. -/
theorem transfer_listener_behavior (pending : List (String × List ℕ))
    (mime : String) (serial : ℕ) (write_ok : Bool) :
    (∀ data, lookupMime pending mime = some data →
      (process_selection_transfer pending mime serial write_ok).1 =
          [PortalCall.selectionWrite serial data] ∧
        (process_selection_transfer pending mime serial write_ok).2 =
          (if write_ok then eraseMime pending mime else pending) ∧
        lookupMime (eraseMime pending mime) mime = none) ∧
    (lookupMime pending mime = none →
      (process_selection_transfer pending mime serial write_ok).1 =
          [PortalCall.selectionWriteDone serial false] ∧
        (process_selection_transfer pending mime serial write_ok).2 = pending) := by
  constructor
  · intro data hdata
    unfold process_selection_transfer
    rw [hdata]
    cases write_ok with
    | false => exact ⟨rfl, rfl, lookupMime_erase pending mime⟩
    | true => exact ⟨rfl, rfl, lookupMime_erase pending mime⟩
  · intro hnone
    unfold process_selection_transfer
    rw [hnone]
    exact ⟨rfl, rfl⟩

/-- C7, witness. -/
theorem transfer_listener_behavior_witness :
    (lookupMime [("text/plain", [104, 105])] "text/plain" = some [104, 105] ∧
        (process_selection_transfer [("text/plain", [104, 105])] "text/plain" 7 true).1 =
            [PortalCall.selectionWrite 7 [104, 105]] ∧
          (process_selection_transfer [("text/plain", [104, 105])] "text/plain" 7 true).2 =
            (if true then eraseMime [("text/plain", [104, 105])] "text/plain"
              else [("text/plain", [104, 105])]) ∧
          lookupMime (eraseMime [("text/plain", [104, 105])] "text/plain") "text/plain" =
            none) ∧
      (lookupMime ([] : List (String × List ℕ)) "text/plain" = none ∧
        (process_selection_transfer [] "text/plain" 8 true).1 =
            [PortalCall.selectionWriteDone 8 false] ∧
          (process_selection_transfer [] "text/plain" 8 true).2 = []) :=
  ⟨⟨by decide,
      (transfer_listener_behavior [("text/plain", [104, 105])] "text/plain" 7 true).1
        [104, 105] (by decide)⟩,
    ⟨by decide,
      (transfer_listener_behavior [] "text/plain" 8 true).2 (by decide)⟩⟩

/-! ### Percent decoding (C8) -/

/-- One hexadecimal digit, both cases, as in `u8::from_str_radix(_, 16)`. -/
def hexDigitVal (c : Char) : Option ℕ :=
  if '0' ≤ c ∧ c ≤ '9' then some (c.toNat - '0'.toNat)
  else if 'a' ≤ c ∧ c ≤ 'f' then some (c.toNat - 'a'.toNat + 10)
  else if 'A' ≤ c ∧ c ≤ 'F' then some (c.toNat - 'A'.toNat + 10)
  else none

def parseHexNat : List Char → ℕ → Option ℕ
  | [], acc => some acc
  | c :: rest, acc =>
    match hexDigitVal c with
    | some v => parseHexNat rest (acc * 16 + v)
    | none => none

/-- `u8::from_str_radix(s, 16)` on the ≤ 2 characters taken after a `%`:
an optional leading `+`, then at least one hex digit of either case. (With at
most two digits the value cannot exceed `u8::MAX`, so no overflow check is
needed; a leading `-` fails the digit parse, as the negative value would be
rejected for `u8`.) -/
def fromStrRadix16 (s : List Char) : Option ℕ :=
  match s with
  | [] => none
  | '+' :: rest => if rest = [] then none else parseHexNat rest 0
  | _ => parseHexNat s 0

/-- `percent_decode` from `clipboard_sink.rs`. On `%` the iterator takes up
to two characters (`chars.by_ref().take(2)`) — spelled out here as the three
cases on how many remain, which makes the recursion structural — parses them
as hex, and pushes `char::from(byte)` (the Unicode code point of the byte, not
UTF-8 decoding) on success, or `%` followed by the taken characters on
failure. -/
def percent_decode : List Char → List Char
  | [] => []
  | c :: rest =>
    if c = '%' then
      match rest with
      | [] =>
        match fromStrRadix16 [] with
        | some b => [Char.ofNat b]
        | none => ['%']
      | [h1] =>
        match fromStrRadix16 [h1] with
        | some b => [Char.ofNat b]
        | none => ['%', h1]
      | h1 :: h2 :: rest2 =>
        match fromStrRadix16 [h1, h2] with
        | some b => Char.ofNat b :: percent_decode rest2
        | none => '%' :: h1 :: h2 :: percent_decode rest2
    else c :: percent_decode rest

/-- UTF-8 encoding of one scalar value. -/
def utf8Bytes (c : Char) : List ℕ :=
  let n := c.toNat
  if n < 128 then [n]
  else if n < 2048 then [192 + n / 64, 128 + n % 64]
  else if n < 65536 then [224 + n / 4096, 128 + n / 64 % 64, 128 + n % 64]
  else [240 + n / 262144, 128 + n / 4096 % 64, 128 + n / 64 % 64, 128 + n % 64]

/-- RFC 3986 unreserved characters, plus the path separator, kept literal by
the standard percent-encoding of a path. -/
def isUnreservedPathChar (c : Char) : Bool :=
  c.isAlpha || c.isDigit || c == '-' || c == '.' || c == '_' || c == '~' || c == '/'

def toHexDigit (n : ℕ) : Char :=
  if n < 10 then Char.ofNat ('0'.toNat + n) else Char.ofNat ('A'.toNat + n - 10)

/-- Modelled from the spec: the "standard percent-encoding" of the
`decode(encode(x)) = x` round-trip claim — the repository contains no encoder.
Unreserved path characters stay literal; every other character is written as
the `%XX` (uppercase hex) encoding of its UTF-8 bytes. -/
def percentEncodeChar (c : Char) : List Char :=
  if isUnreservedPathChar c then [c]
  else (utf8Bytes c).flatMap fun b => ['%', toHexDigit (b / 16), toHexDigit (b % 16)]

/-- Modelled from the spec: standard percent-encoding of a path string. -/
def percentEncodeSpec (l : List Char) : List Char :=
  l.flatMap percentEncodeChar

/-- C8 counterexample: for the non-ASCII path `"é"` the round trip fails:
`encode "é" = "%C3%A9"`, and `percent_decode` maps each byte to its Latin-1
code point (`char::from(byte)`), yielding `"Ã©"`, not `"é"`. -/
theorem percent_decode_encode_not_id_cex :
    percent_decode (percentEncodeSpec [⟨233, by decide⟩]) ≠ [⟨233, by decide⟩] := by
  decide

set_option maxRecDepth 4000 in
theorem parse_toHexDigits : ∀ n : ℕ, n < 256 →
    fromStrRadix16 [toHexDigit (n / 16), toHexDigit (n % 16)] = some n := by
  decide

theorem percent_decode_cons_of_ne (c : Char) (hne : ¬ c = '%') (rest : List Char) :
    percent_decode (c :: rest) = c :: percent_decode rest := by
  rw [percent_decode.eq_def]
  simp only [hne, if_false]

theorem percent_decode_hex_step (h1 h2 : Char) (b : ℕ) (rest : List Char)
    (hparse : fromStrRadix16 [h1, h2] = some b) :
    percent_decode ('%' :: h1 :: h2 :: rest) = Char.ofNat b :: percent_decode rest := by
  rw [percent_decode.eq_def]
  simp only [if_pos rfl]
  rw [hparse]
  simp

/-- C8 amended: the round trip `percent_decode (encode x) = x` holds for every
ASCII path (all code points below 128); it fails on non-ASCII paths because
`percent_decode` turns each decoded byte into a Unicode code point instead of
decoding UTF-8. -/
theorem percent_decode_encode_ascii (l : List Char)
    (h : ∀ c ∈ l, c.toNat < 128) :
    percent_decode (percentEncodeSpec l) = l := by
  induction l with
  | nil => rfl
  | cons c rest ih =>
    have hc : c.toNat < 128 := h c (List.mem_cons_self c rest)
    have hrest : ∀ x ∈ rest, x.toNat < 128 := fun x hx => h x (List.mem_cons_of_mem c hx)
    have hsplit : percentEncodeSpec (c :: rest) =
        percentEncodeChar c ++ percentEncodeSpec rest := by
      simp [percentEncodeSpec]
    rw [hsplit]
    by_cases hu : isUnreservedPathChar c = true
    · have hne : c ≠ '%' := by
        intro hEq
        subst hEq
        exact absurd hu (by decide)
      rw [show percentEncodeChar c = [c] by simp [percentEncodeChar, hu]]
      rw [List.singleton_append, percent_decode_cons_of_ne c hne, ih hrest]
    · have hbytes : utf8Bytes c = [c.toNat] := by
        simp [utf8Bytes, hc]
      rw [show percentEncodeChar c =
          ['%', toHexDigit (c.toNat / 16), toHexDigit (c.toNat % 16)] by
        simp [percentEncodeChar, hu, hbytes]]
      rw [List.cons_append, List.cons_append, List.cons_append, List.nil_append]
      rw [percent_decode_hex_step _ _ c.toNat _ (parse_toHexDigits c.toNat (by omega))]
      rw [Char.ofNat_toNat, ih hrest]

/-- C8 amended, witness. -/
theorem percent_decode_encode_ascii_witness :
    (∀ c ∈ ['/', 't', 'm', 'p', '/', 'a', ' ', 'b'], c.toNat < 128) ∧
      percent_decode (percentEncodeSpec ['/', 't', 'm', 'p', '/', 'a', ' ', 'b']) =
        ['/', 't', 'm', 'p', '/', 'a', ' ', 'b'] :=
  ⟨by decide, percent_decode_encode_ascii ['/', 't', 'm', 'p', '/', 'a', ' ', 'b']
    (by decide)⟩

/-! ## PipeWire manager (`crates/lamco-pipewire/src/manager.rs`) -/

/-- Modelled from the spec: the `PipeWireError` variants used by
`remove_stream` (the crate's `error` module is not under `src/`; §7 of the
spec lists the taxonomy: `StreamNotFound(id)`, `ThreadCommunicationFailed`,
`PipeWireFailed`). -/
inductive PipeWireError
  | streamNotFound (id : ℕ)
  | threadCommunicationFailed
  | pipewireFailed
deriving DecidableEq

/-- Observable events of `remove_stream`, in order: the removal from both
maps, then the `DestroyStream` command dispatch to the capture thread. -/
inductive MgrEvent
  | mapsRemoved
  | dispatchDestroy
deriving DecidableEq

/-- The stream-bookkeeping state of `PipeWireManager`: the key set of the
`streams` map (handles are irrelevant here), the `frame_receivers` map with
senders modelled by generation numbers (`frame_receiver` installs a fresh
generation, so distinct installs are distinct channels), and
`thread_manager.is_some()`. -/
structure PWManagerState where
  streams : List ℕ
  frame_receivers : List (ℕ × ℕ)
  next_sender_gen : ℕ
  has_thread : Bool
deriving DecidableEq

/-- `HashMap::insert` on the receiver map (keys unique: replace). -/
def insertReceiver (m : List (ℕ × ℕ)) (id gen : ℕ) : List (ℕ × ℕ) :=
  (id, gen) :: m.filter fun p => !(p.1 == id)

def lookupReceiver (m : List (ℕ × ℕ)) (id : ℕ) : Option ℕ :=
  (m.find? fun p => p.1 == id).map Prod.snd

namespace PWManagerState

/-- `PipeWireManager::frame_receiver`: create a fresh channel, install its
sender under `stream_id` — whether or not such a stream exists or ever
existed — and return `Some(receiver)` unconditionally. -/
def frame_receiver (s : PWManagerState) (stream_id : ℕ) :
    Option ℕ × PWManagerState :=
  let gen := s.next_sender_gen
  (some gen,
    { s with
      frame_receivers := insertReceiver s.frame_receivers stream_id gen
      next_sender_gen := gen + 1 })

/-- `PipeWireManager::remove_stream`. `send_ok` is the oracle for
`thread_manager.send_command(DestroyStream …)`; `reply` is the oracle for
`response_rx.recv()` — `none` is a closed reply channel (`RecvError`,
ignored), `some (Except.error _)` a capture-thread error surfaced by
`result?`. The trace records that both map removals happen before the
`DestroyStream` dispatch. -/
def remove_stream (s : PWManagerState) (stream_id : ℕ) (send_ok : Bool)
    (reply : Option (Except Unit Unit)) :
    Except PipeWireError Unit × PWManagerState × List MgrEvent :=
  if stream_id ∈ s.streams then
    let s1 : PWManagerState := { s with
      streams := s.streams.filter fun i => !(i == stream_id)
      frame_receivers := s.frame_receivers.filter fun p => !(p.1 == stream_id) }
    if s.has_thread then
      if send_ok then
        match reply with
        | some (Except.error _) =>
          (Except.error PipeWireError.pipewireFailed, s1,
            [MgrEvent.mapsRemoved, MgrEvent.dispatchDestroy])
        | _ =>
          (Except.ok (), s1, [MgrEvent.mapsRemoved, MgrEvent.dispatchDestroy])
      else
        (Except.error PipeWireError.threadCommunicationFailed, s1,
          [MgrEvent.mapsRemoved, MgrEvent.dispatchDestroy])
    else (Except.ok (), s1, [MgrEvent.mapsRemoved])
  else (Except.error (PipeWireError.streamNotFound stream_id), s, [])

end PWManagerState

/-- C9. `frame_receiver(stream_id)` returns `Some` for every id — also ids
never created or already removed — installing the freshly created sender under
that id: the returned receiver is `some next_sender_gen`, the map afterwards
resolves the id to that generation, and (given the generation counter
invariant) the generation is distinct from every previously installed sender,
i.e. the channel is fresh. -/
theorem frame_receiver_always_some (s : PWManagerState) (id : ℕ)
    (hfresh : ∀ p ∈ s.frame_receivers, p.2 < s.next_sender_gen) :
    ((s.frame_receiver id).1.isSome = true ∧
        (s.frame_receiver id).1 = some s.next_sender_gen) ∧
      lookupReceiver (s.frame_receiver id).2.frame_receivers id =
        some s.next_sender_gen ∧
      ∀ p ∈ s.frame_receivers, p.2 ≠ s.next_sender_gen := by
  refine ⟨⟨rfl, rfl⟩, ?_, ?_⟩
  · simp [PWManagerState.frame_receiver, insertReceiver, lookupReceiver, List.find?]
  · intro p hp
    exact Nat.ne_of_lt (hfresh p hp)

/-- C9, witness. -/
theorem frame_receiver_always_some_witness :
    (∀ p ∈ ([(3, 0)] : List (ℕ × ℕ)), p.2 < 1) ∧
      (((PWManagerState.mk [3] [(3, 0)] 1 true).frame_receiver 99).1.isSome = true ∧
          ((PWManagerState.mk [3] [(3, 0)] 1 true).frame_receiver 99).1 = some 1) ∧
        lookupReceiver
            ((PWManagerState.mk [3] [(3, 0)] 1 true).frame_receiver 99).2.frame_receivers
            99 = some 1 ∧
        ∀ p ∈ ([(3, 0)] : List (ℕ × ℕ)), p.2 ≠ 1 :=
  ⟨by decide, frame_receiver_always_some (PWManagerState.mk [3] [(3, 0)] 1 true) 99
    (by decide)⟩

theorem lookupReceiver_filter_ne (m : List (ℕ × ℕ)) (id : ℕ) :
    lookupReceiver (m.filter fun p => !(p.1 == id)) id = none := by
  induction m with
  | nil => rfl
  | cons p rest ih =>
    by_cases h : p.1 == id
    · simp only [List.filter, h]
      exact ih
    · simp only [lookupReceiver, List.filter, h] at ih ⊢
      simp only [List.find?, h]
      exact ih

theorem remove_stream_state (s : PWManagerState) (id : ℕ) (send_ok : Bool)
    (reply : Option (Except Unit Unit)) (h : id ∈ s.streams) :
    (s.remove_stream id send_ok reply).2.1 =
      { s with
        streams := s.streams.filter fun i => !(i == id)
        frame_receivers := s.frame_receivers.filter fun p => !(p.1 == id) } := by
  unfold PWManagerState.remove_stream
  rw [if_pos h]
  split
  · split
    · split <;> rfl
    · rfl
  · rfl

theorem remove_stream_trace (s : PWManagerState) (id : ℕ) (send_ok : Bool)
    (reply : Option (Except Unit Unit)) (h : id ∈ s.streams) :
    (s.remove_stream id send_ok reply).2.2 = [MgrEvent.mapsRemoved] ∨
      (s.remove_stream id send_ok reply).2.2 =
        [MgrEvent.mapsRemoved, MgrEvent.dispatchDestroy] := by
  unfold PWManagerState.remove_stream
  rw [if_pos h]
  split
  · split
    · split <;> exact Or.inr rfl
    · exact Or.inr rfl
  · exact Or.inl rfl

/-- C10. For a known stream id, `remove_stream` — whatever its result (`Ok`,
a send failure, or a capture-thread destroy error) — leaves the id absent from
both the stream map and the frame-receiver map; an immediately repeated
`remove_stream(id)` returns `StreamNotFound(id)`; and the trace shows the map
updates strictly precede the `DestroyStream` dispatch (when one happens). -/
theorem remove_stream_spec (s : PWManagerState) (id : ℕ) (send_ok : Bool)
    (reply : Option (Except Unit Unit)) (h : id ∈ s.streams) :
    id ∉ (s.remove_stream id send_ok reply).2.1.streams ∧
      lookupReceiver (s.remove_stream id send_ok reply).2.1.frame_receivers id = none ∧
      (∀ (send_ok2 : Bool) (reply2 : Option (Except Unit Unit)),
        ((s.remove_stream id send_ok reply).2.1.remove_stream id send_ok2 reply2).1 =
          Except.error (PipeWireError.streamNotFound id)) ∧
      ((s.remove_stream id send_ok reply).2.2 = [MgrEvent.mapsRemoved] ∨
        (s.remove_stream id send_ok reply).2.2 =
          [MgrEvent.mapsRemoved, MgrEvent.dispatchDestroy]) := by
  have hstate := remove_stream_state s id send_ok reply h
  have hmem : id ∉ (s.remove_stream id send_ok reply).2.1.streams := by
    rw [hstate]
    simp
  refine ⟨hmem, ?_, ?_, remove_stream_trace s id send_ok reply h⟩
  · rw [hstate]
    exact lookupReceiver_filter_ne s.frame_receivers id
  · intro send_ok2 reply2
    rw [hstate]
    unfold PWManagerState.remove_stream
    dsimp only
    split
    · rename_i hmem2
      simp at hmem2
    · rfl

/-- C10, witness. -/
theorem remove_stream_spec_witness :
    (5 ∈ ([5, 7] : List ℕ)) ∧
      (5 ∉ ((PWManagerState.mk [5, 7] [(5, 0), (7, 1)] 2 true).remove_stream 5 true
          (some (Except.error ()))).2.1.streams ∧
        lookupReceiver ((PWManagerState.mk [5, 7] [(5, 0), (7, 1)] 2 true).remove_stream 5
            true (some (Except.error ()))).2.1.frame_receivers 5 = none ∧
        (∀ (send_ok2 : Bool) (reply2 : Option (Except Unit Unit)),
          (((PWManagerState.mk [5, 7] [(5, 0), (7, 1)] 2 true).remove_stream 5 true
              (some (Except.error ()))).2.1.remove_stream 5 send_ok2 reply2).1 =
            Except.error (PipeWireError.streamNotFound 5)) ∧
        (((PWManagerState.mk [5, 7] [(5, 0), (7, 1)] 2 true).remove_stream 5 true
            (some (Except.error ()))).2.2 = [MgrEvent.mapsRemoved] ∨
          ((PWManagerState.mk [5, 7] [(5, 0), (7, 1)] 2 true).remove_stream 5 true
            (some (Except.error ()))).2.2 =
            [MgrEvent.mapsRemoved, MgrEvent.dispatchDestroy])) :=
  ⟨by decide, remove_stream_spec (PWManagerState.mk [5, 7] [(5, 0), (7, 1)] 2 true) 5 true
    (some (Except.error ())) (by decide)⟩

end LamcoWayland
